import Mathlib

/-!
Verification of the mesh raycast-to-texture painting core of the EnsoXR
repository against its specification.

The embedding covers:

* `MeshPaintable.ts` — `rayTriangleIntersectMollerTrumbore`, the AABB-pruned
  closest-hit scan of `getUVFromLocalRay`, barycentric UV interpolation with
  clamping to `[0,1]`, and the planar X/Z fallback;
* `MeshBrush.ts` — the per-frame `update` state machine: contact-lost
  bookkeeping, the proximity gate, triangle-adjacency stroke interpolation,
  and the hex-color name picker (`_tryPickColorFromName`,
  `_hexToRgbNormalized`).

Numbers are embedded as exact rationals.  The two places where the source
compares a square root (`Math.hypot`) are embedded by the exact
characterization on squares — `hypot(d) ≤ r ↔ 0 ≤ r ∧ d² ≤ r²` and
`⌈hypot(d)/s⌉ = least n with d² ≤ (n·s)²` — and the theorems state them
through `Real.sqrt` so that the specified real-number readings are proved,
not assumed.

Host services (the physics raycast, object transforms, the canvas) are
oracles supplied as per-frame input data; the state machine itself is
translated line by line from `MeshBrush.update`.
-/

namespace EnsoXR

/-- A 3-component vector of exact rationals (source: `Float32Array(3)`). -/
structure Vec3 where
  x : ℚ
  y : ℚ
  z : ℚ
  deriving DecidableEq, Repr

/-- Componentwise difference, as in the edge computations of the source. -/
def vsub (a b : Vec3) : Vec3 := ⟨a.x - b.x, a.y - b.y, a.z - b.z⟩

/-- Dot product. -/
def dot (a b : Vec3) : ℚ := a.x * b.x + a.y * b.y + a.z * b.z

/-- Cross product, with the component formulas of
`rayTriangleIntersectMollerTrumbore` (`px = dir[1]*edge2z - dir[2]*edge2y`, …). -/
def cross (a b : Vec3) : Vec3 :=
  ⟨a.y * b.z - a.z * b.y, a.z * b.x - a.x * b.z, a.x * b.y - a.y * b.x⟩

/-- `EPS = 1e-8` of `rayTriangleIntersectMollerTrumbore`. -/
def mtEps : ℚ := 1 / 100000000

/-- `hit.t > 1e-6` threshold of the scan loop in `getUVFromLocalRay`. -/
def hitEps : ℚ := 1 / 1000000

/-- Result `{t, u, v}` of the exact ray-triangle test. -/
structure MTHit where
  t : ℚ
  u : ℚ
  v : ℚ
  deriving DecidableEq, Repr

/-- Exact translation of `rayTriangleIntersectMollerTrumbore` from
`MeshPaintable.ts` (lines 528–567): determinant-based test, degenerate
triangles rejected when `-EPS < det < EPS`, then the barycentric window
`0 ≤ u ≤ 1`, `0 ≤ v`, `u + v ≤ 1`, and `t > EPS`. -/
def rayTriangleIntersectMollerTrumbore (orig dir p0 p1 p2 : Vec3) : Option MTHit :=
  let edge1 := vsub p1 p0
  let edge2 := vsub p2 p0
  let pvec := cross dir edge2
  let det := dot edge1 pvec
  if -mtEps < det ∧ det < mtEps then none
  else
    let invDet := 1 / det
    let tvec := vsub orig p0
    let u := dot tvec pvec * invDet
    if u < 0 ∨ u > 1 then none
    else
      let qvec := cross tvec edge1
      let v := dot dir qvec * invDet
      if v < 0 ∨ u + v > 1 then none
      else
        let t := dot edge2 qvec * invDet
        if t ≤ mtEps then none
        else some ⟨t, u, v⟩

/-- The immutable geometry snapshot built by `_buildMeshCaches`: flat vertex
positions, optional per-vertex UVs, and triangle vertex-index triples.  The
per-triangle AABBs are derived below exactly as the cache derives them from
the same positions. -/
structure Snapshot where
  positions : List Vec3
  uvs : Option (List (ℚ × ℚ))
  tris : List (ℕ × ℕ × ℕ)
  deriving DecidableEq, Repr

/-- Vertex position lookup (in-range reads of `_positionsFlat`). -/
def posAt (s : Snapshot) (i : ℕ) : Vec3 := s.positions.getD i ⟨0, 0, 0⟩

/-- Vertex UV lookup (in-range reads of `_uvsFlat`). -/
def uvAt (uvs : List (ℚ × ℚ)) (i : ℕ) : ℚ × ℚ := uvs.getD i (0, 0)

/-- Triangle index triple lookup (in-range reads of `_triIndices`). -/
def triAt (s : Snapshot) (t : ℕ) : ℕ × ℕ × ℕ := s.tris.getD t (0, 0, 0)

/-- Per-triangle AABB minimum (`_buildMeshCaches`, `triMin`). -/
def triAABBMin (s : Snapshot) (t : ℕ) : Vec3 :=
  let p0 := posAt s (triAt s t).1
  let p1 := posAt s (triAt s t).2.1
  let p2 := posAt s (triAt s t).2.2
  ⟨min (min p0.x p1.x) p2.x, min (min p0.y p1.y) p2.y, min (min p0.z p1.z) p2.z⟩

/-- Per-triangle AABB maximum (`_buildMeshCaches`, `triMax`). -/
def triAABBMax (s : Snapshot) (t : ℕ) : Vec3 :=
  let p0 := posAt s (triAt s t).1
  let p1 := posAt s (triAt s t).2.1
  let p2 := posAt s (triAt s t).2.2
  ⟨max (max p0.x p1.x) p2.x, max (max p0.y p1.y) p2.y, max (max p0.z p1.z) p2.z⟩

/-- The ray's own AABB minimum, from `origin` and
`localEnd = origin + dir·maxDistance` (`getUVFromLocalRay`, lines 304–314). -/
def rayAABBMin (o d : Vec3) (maxD : ℚ) : Vec3 :=
  ⟨min o.x (o.x + d.x * maxD), min o.y (o.y + d.y * maxD), min o.z (o.z + d.z * maxD)⟩

/-- The ray's own AABB maximum. -/
def rayAABBMax (o d : Vec3) (maxD : ℚ) : Vec3 :=
  ⟨max o.x (o.x + d.x * maxD), max o.y (o.y + d.y * maxD), max o.z (o.z + d.z * maxD)⟩

/-- The cheap axis-aligned overlap test of the scan loop
(`getUVFromLocalRay`, lines 333–341): the triangle is kept unless the two
boxes are disjoint on some axis. -/
def aabbOverlap (s : Snapshot) (t : ℕ) (o d : Vec3) (maxD : ℚ) : Bool :=
  let tmin := triAABBMin s t
  let tmax := triAABBMax s t
  let rmin := rayAABBMin o d maxD
  let rmax := rayAABBMax o d maxD
  !(decide (tmax.x < rmin.x) || decide (tmin.x > rmax.x) ||
    decide (tmax.y < rmin.y) || decide (tmin.y > rmax.y) ||
    decide (tmax.z < rmin.z) || decide (tmin.z > rmax.z))

/-- The exact per-triangle candidate of the scan: the Möller–Trumbore result
filtered by `hit.t > 1e-6 && hit.t <= maxDistance` (line 365).  This is the
brute-force reference test, without the AABB pruning. -/
def triCandidate (s : Snapshot) (o d : Vec3) (maxD : ℚ) (t : ℕ) : Option MTHit :=
  match rayTriangleIntersectMollerTrumbore o d
      (posAt s (triAt s t).1) (posAt s (triAt s t).2.1) (posAt s (triAt s t).2.2) with
  | none => none
  | some h => if hitEps < h.t ∧ h.t ≤ maxD then some h else none

/-- The candidate as the loop actually computes it: AABB pruning first,
exact test only on surviving triangles. -/
def triCandidatePruned (s : Snapshot) (o d : Vec3) (maxD : ℚ) (t : ℕ) : Option MTHit :=
  if aabbOverlap s t o d maxD then triCandidate s o d maxD t else none

/-- The closest-hit selection of the scan loop: triangles `0, …, n-1` in
order, a new candidate replaces the best one exactly when `hit.t < closestT`
(strict, so the earliest triangle wins ties). -/
def scanClosest (f : ℕ → Option MTHit) : ℕ → Option (ℕ × MTHit)
  | 0 => none
  | n + 1 =>
    let b := scanClosest f n
    match f n with
    | none => b
    | some h =>
      match b with
      | none => some (n, h)
      | some jh => if h.t < jh.2.t then some (n, h) else some jh

/-- `Math.min(Math.max(a, 0), 1)` — the UV clamp (FIX #3 in the source). -/
def clamp01 (a : ℚ) : ℚ := min (max a 0) 1

/-- Minimum X over all vertex positions (planar-fallback mesh AABB,
`getUVFromLocalRay` lines 424–436).  The `[]` case is unreachable whenever a
hit exists and is given the harmless value 0. -/
def meshMinX : List Vec3 → ℚ
  | [] => 0
  | w :: ws => ws.foldl (fun m u => min m u.x) w.x

/-- Maximum X over all vertex positions. -/
def meshMaxX : List Vec3 → ℚ
  | [] => 0
  | w :: ws => ws.foldl (fun m u => max m u.x) w.x

/-- Minimum Z over all vertex positions. -/
def meshMinZ : List Vec3 → ℚ
  | [] => 0
  | w :: ws => ws.foldl (fun m u => min m u.z) w.z

/-- Maximum Z over all vertex positions. -/
def meshMaxZ : List Vec3 → ℚ
  | [] => 0
  | w :: ws => ws.foldl (fun m u => max m u.z) w.z

/-- JavaScript `a || 1` applied to a rational extent: 0 falls back to 1. -/
def denomOr1 (a : ℚ) : ℚ := if a = 0 then 1 else a

/-- `origin + dir·t` — the hit point reconstruction (line 370–374). -/
def hitPointAt (o d : Vec3) (t : ℚ) : Vec3 :=
  ⟨o.x + d.x * t, o.y + d.y * t, o.z + d.z * t⟩

/-- `{uv, triIndex, localHit}` returned by `getUVFromLocalRay`. -/
structure UVResult where
  uv : ℚ × ℚ
  triIndex : ℕ
  localHit : Vec3
  deriving DecidableEq, Repr

/-- Translation of `getUVFromLocalRay` (`MeshPaintable.ts` lines 287–451):
AABB-pruned closest-hit scan, then barycentric UV interpolation with
clamping when the mesh carries UVs, the planar X/Z projection when it does
not and `planarFallback` is enabled, and `none` otherwise. -/
def getUVFromLocalRay (s : Snapshot) (planarFallback : Bool) (o d : Vec3) (maxD : ℚ) :
    Option UVResult :=
  match scanClosest (triCandidatePruned s o d maxD) s.tris.length with
  | none => none
  | some best =>
    let bestTri := best.1
    let h := best.2
    let hitP : Vec3 := hitPointAt o d h.t
    match s.uvs with
    | some uvs =>
      let uv0 := uvAt uvs (triAt s bestTri).1
      let uv1 := uvAt uvs (triAt s bestTri).2.1
      let uv2 := uvAt uvs (triAt s bestTri).2.2
      let w0 := 1 - h.u - h.v
      let finalU := w0 * uv0.1 + h.u * uv1.1 + h.v * uv2.1
      let finalV := w0 * uv0.2 + h.u * uv1.2 + h.v * uv2.2
      some ⟨(clamp01 finalU, clamp01 finalV), bestTri, hitP⟩
    | none =>
      if planarFallback then
        let u := (hitP.x - meshMinX s.positions) /
          denomOr1 (meshMaxX s.positions - meshMinX s.positions)
        let v := (hitP.z - meshMinZ s.positions) /
          denomOr1 (meshMaxZ s.positions - meshMinZ s.positions)
        some ⟨(clamp01 u, clamp01 v), bestTri, hitP⟩
      else none

/-- The same resolution run on the brute-force scan (no AABB pruning):
the reference implementation the spec compares the pruned scan against. -/
def getUVFromLocalRayNoPrune (s : Snapshot) (planarFallback : Bool) (o d : Vec3) (maxD : ℚ) :
    Option UVResult :=
  match scanClosest (triCandidate s o d maxD) s.tris.length with
  | none => none
  | some best =>
    let bestTri := best.1
    let h := best.2
    let hitP : Vec3 := hitPointAt o d h.t
    match s.uvs with
    | some uvs =>
      let uv0 := uvAt uvs (triAt s bestTri).1
      let uv1 := uvAt uvs (triAt s bestTri).2.1
      let uv2 := uvAt uvs (triAt s bestTri).2.2
      let w0 := 1 - h.u - h.v
      let finalU := w0 * uv0.1 + h.u * uv1.1 + h.v * uv2.1
      let finalV := w0 * uv0.2 + h.u * uv1.2 + h.v * uv2.2
      some ⟨(clamp01 finalU, clamp01 finalV), bestTri, hitP⟩
    | none =>
      if planarFallback then
        let u := (hitP.x - meshMinX s.positions) /
          denomOr1 (meshMaxX s.positions - meshMinX s.positions)
        let v := (hitP.z - meshMinZ s.positions) /
          denomOr1 (meshMaxZ s.positions - meshMinZ s.positions)
        some ⟨(clamp01 u, clamp01 v), bestTri, hitP⟩
      else none

/-! ### MeshBrush: per-frame state machine -/

/-- Surface identity: the stable numeric object id keying the continuity maps. -/
abbrev ObjId := ℕ

/-- First-match lookup in a continuity map (`Map.get`). -/
def mapGet {α : Type} (k : ObjId) : List (ObjId × α) → Option α
  | [] => none
  | p :: ps => if p.1 = k then some p.2 else mapGet k ps

/-- Key removal (`Map.delete`). -/
def mapDel {α : Type} (k : ObjId) : List (ObjId × α) → List (ObjId × α)
  | [] => []
  | p :: ps => if p.1 = k then mapDel k ps else p :: mapDel k ps

/-- Key insertion/overwrite (`Map.set`). -/
def mapSet {α : Type} (k : ObjId) (v : α) (m : List (ObjId × α)) : List (ObjId × α) :=
  (k, v) :: mapDel k m

/-- `for (const key of this._lastUVPerObject.keys()) this._contactLostPerObject.set(key, true)`
— the broadcast used by the no-hit branches of `MeshBrush.update`. -/
def markAllLost (tracked : List (ObjId × (ℚ × ℚ))) (cl : List (ObjId × Bool)) :
    List (ObjId × Bool) :=
  tracked.foldl (fun m p => mapSet p.1 true m) cl

/-! Hex-color recognition (`_tryPickColorFromName`, `_hexToRgbNormalized`).
The regex `/#([0-9a-fA-F]{6}|[0-9a-fA-F]{3})/` is embedded as a left-to-right
scan that, at each `#`, tries a 6-digit window first and a 3-digit window
second. -/

/-- `[0-9a-fA-F]` (compared through code points). -/
def isHexDigit (c : Char) : Bool :=
  (decide ('0'.toNat ≤ c.toNat) && decide (c.toNat ≤ '9'.toNat)) ||
  (decide ('a'.toNat ≤ c.toNat) && decide (c.toNat ≤ 'f'.toNat)) ||
  (decide ('A'.toNat ≤ c.toNat) && decide (c.toNat ≤ 'F'.toNat))

/-- Value of one hex digit (the per-digit behavior of `parseInt(·, 16)`). -/
def hexDigitVal (c : Char) : ℕ :=
  if '0'.toNat ≤ c.toNat ∧ c.toNat ≤ '9'.toNat then c.toNat - '0'.toNat
  else if 'a'.toNat ≤ c.toNat ∧ c.toNat ≤ 'f'.toNat then c.toNat - 'a'.toNat + 10
  else if 'A'.toNat ≤ c.toNat ∧ c.toNat ≤ 'F'.toNat then c.toNat - 'A'.toNat + 10
  else 0

/-- At a position right after a `#`: the 6-digit alternative, then the
3-digit one, as the regex alternation orders them. -/
def matchHexDigits (cs : List Char) : Option (List Char) :=
  if (cs.take 6).length = 6 ∧ (cs.take 6).all isHexDigit then some (cs.take 6)
  else if (cs.take 3).length = 3 ∧ (cs.take 3).all isHexDigit then some (cs.take 3)
  else none

/-- Left-to-right scan for the first `#`-token the regex accepts; returns the
matched digits (without the `#`, original case). -/
def findHexToken : List Char → Option (List Char)
  | [] => none
  | c :: cs =>
    if c = '#' then
      match matchHexDigits cs with
      | some ds => some ds
      | none => findHexToken cs
    else findHexToken cs

/-- `hex.replace('#', '')`: JavaScript `replace` with a string pattern drops
only the first occurrence. -/
def removeFirstHash : List Char → List Char
  | [] => []
  | c :: cs => if c = '#' then cs else c :: removeFirstHash cs

/-- `h.split('').map(c => c + c).join('')` — 3→6 nibble doubling. -/
def doubleChars : List Char → List Char
  | [] => []
  | c :: cs => c :: c :: doubleChars cs

/-- `parseInt(s.substring(i, i+2), 16)` on a two-character slice, with the
`Number.isNaN` check: `none` iff the first character is not a hex digit; a
non-hex second character is silently dropped (one-digit parse), exactly as
`parseInt` behaves. -/
def parseHexPair (a b : Char) : Option ℕ :=
  if isHexDigit a then
    some (if isHexDigit b then 16 * hexDigitVal a + hexDigitVal b else hexDigitVal a)
  else none

/-- Parse six hex characters into the normalized triple
`(r/255, g/255, b/255)`. -/
def parseRgb6 : List Char → Option (ℚ × ℚ × ℚ)
  | [a, b, c, d, e, f] =>
    match parseHexPair a b, parseHexPair c d, parseHexPair e f with
    | some r, some g, some bl => some ((r : ℚ) / 255, (g : ℚ) / 255, (bl : ℚ) / 255)
    | _, _, _ => none
  | _ => none

/-- Translation of `_hexToRgbNormalized`: strip the first `#`, double a
3-character body, reject any other length but 6, then parse the three pairs. -/
def hexToRgbNormalized (hex : List Char) : Option (ℚ × ℚ × ℚ) :=
  let h := removeFirstHash hex
  if h.length = 3 then parseRgb6 (doubleChars h)
  else if h.length ≠ 6 then none
  else parseRgb6 h

/-- Translation of `_tryPickColorFromName`: find the first `#`-token, convert
it (the conversion also becomes the new brush color in `update`), and return
the lower-cased *matched* string — for a 3-digit match the un-expanded
3-digit form — together with the triple. -/
def tryPickColorFromName (name : String) : Option (String × (ℚ × ℚ × ℚ)) :=
  match findHexToken name.data with
  | none => none
  | some tok =>
    match hexToRgbNormalized ('#' :: tok) with
    | none => none
    | some rgb => some (String.mk (('#' :: tok).map Char.toLower), rgb)

/-! Interpolation step count.  The source computes
`steps = max(1, ceil(hypot(dx,dy) / stepSize))`; `ceil(√q / s)` is embedded
exactly as the least `n` with `q ≤ (n·s)²`, found by a bounded upward
search. -/

/-- Bounded search for the least `n ≥ start` with `q ≤ (n·s)²`. -/
def leastSqGe (q s : ℚ) : ℕ → ℕ → ℕ
  | n, 0 => n
  | n, fuel + 1 => if q ≤ ((n : ℚ) * s) * ((n : ℚ) * s) then n else leastSqGe q s (n + 1) fuel

/-- `⌈√q / s⌉` for `0 ≤ q`, `1 ≤ s`: the least `n` with `q ≤ (n·s)²`
(the fuel `q.num.toNat + 1` is an upper bound for that `n`). -/
def ceilSqrtDiv (q s : ℚ) : ℕ := leastSqGe q s 0 (q.num.toNat + 1)

/-- `Math.max(1, Math.floor(brushRadiusPx * 0.5))`. -/
def stepSizeOf (radiusPx : ℕ) : ℕ := max 1 (radiusPx / 2)

/-- Squared pixel distance between two UVs scaled by the raster size:
`dxuv = uv[0]*w - lastUV[0]*w`, `dyuv = uv[1]*h - lastUV[1]*h`, squared. -/
def distSqPx (luv uv : ℚ × ℚ) (w h : ℕ) : ℚ :=
  (uv.1 * w - luv.1 * w) * (uv.1 * w - luv.1 * w) +
  (uv.2 * h - luv.2 * h) * (uv.2 * h - luv.2 * h)

/-- Squared world distance from the brush tip to the hit point
(`dx,dy,dz` then `Math.hypot`, squared). -/
def distSqWorld (a b : Vec3) : ℚ :=
  (a.x - b.x) * (a.x - b.x) + (a.y - b.y) * (a.y - b.y) + (a.z - b.z) * (a.z - b.z)

/-- The 9-way shared-vertex test of `MeshBrush.update` (lines 215–229). -/
def sharesVertex (c l : ℕ × ℕ × ℕ) : Bool :=
  decide (c.1 = l.1) || decide (c.1 = l.2.1) || decide (c.1 = l.2.2) ||
  decide (c.2.1 = l.1) || decide (c.2.1 = l.2.1) || decide (c.2.1 = l.2.2) ||
  decide (c.2.2 = l.1) || decide (c.2.2 = l.2.1) || decide (c.2.2 = l.2.2)

/-- Brush configuration (the immutable `@property` fields used by `update`;
`brushColor` is mutable — a color pick overwrites it — so it lives in the
state instead). -/
structure BrushCfg where
  brushRadiusPx : ℕ
  paintOnProximity : Bool
  brushWorldRadius : ℚ
  maxDistance : ℚ
  deriving DecidableEq, Repr

/-- Mutable brush state: the three per-object continuity maps and the
current brush color. -/
structure BrushState where
  lastUV : List (ObjId × (ℚ × ℚ))
  lastTri : List (ObjId × (ℕ × ℕ × ℕ))
  contactLost : List (ObjId × Bool)
  brushColor : ℚ × ℚ × ℚ × ℚ
  deriving DecidableEq, Repr

/-- The paint capability of the hit object, as `update` consumes it:
the `getUVFromLocalRay` answer for this frame's local ray, the canvas size,
and the cached triangle-index lookup (`_getTriangleVertexIndices`). -/
structure PaintableData where
  uvResult : Option UVResult
  canvasW : ℕ
  canvasH : ℕ
  triVerts : ℕ → Option (ℕ × ℕ × ℕ)

/-- The first raycast hit: world hit location, the struck object's name and
id, and its paint capability if it has one. -/
structure RayHitData where
  worldHitPos : Vec3
  name : String
  objectId : ObjId
  paintable : Option PaintableData

/-- Host-supplied data for one frame: the brush tip's world position and the
raycast answer (`none` covers both `hitCount === 0` and a missing hit
object). -/
structure FrameData where
  worldOrigin : Vec3
  rayHit : Option RayHitData

/-- What one `update` call produces: the new state, the dab positions passed
to `paintAtUV` in order, and the hex string passed to `onPickedColor` if a
color pick happened. -/
structure FrameOutput where
  state : BrushState
  dabs : List (ℚ × ℚ)
  pickedColor : Option String
  deriving Repr

/-- The dab list computed by the painting tail of `MeshBrush.update`
(lines 232–251): on an adjacent continuation, `steps + 1` dabs linearly
interpolated from the previous UV to the current one; otherwise the single
dab at the current UV. -/
def dabsFor (cfg : BrushCfg) (pd : PaintableData) (doInterp : Bool)
    (lastUV : Option (ℚ × ℚ)) (uv : ℚ × ℚ) : List (ℚ × ℚ) :=
  if doInterp = true then
    match lastUV with
    | some luv =>
      let steps := max 1 (ceilSqrtDiv (distSqPx luv uv pd.canvasW pd.canvasH)
        (stepSizeOf cfg.brushRadiusPx))
      (List.range (steps + 1)).map (fun (k : ℕ) =>
        let tt : ℚ := if steps = 0 then 0 else (k : ℚ) / (steps : ℚ)
        (luv.1 * (1 - tt) + uv.1 * tt, luv.2 * (1 - tt) + uv.2 * tt))
    | none => [uv]
  else [uv]

/-- The painting tail of `MeshBrush.update` (lines 194–260), entered once a
hit on a paintable object has resolved a UV within proximity: stale-contact
reset, adjacency test, dab interpolation, and recording of the current
UV/triangle as the new "last". -/
def paintStep (cfg : BrushCfg) (st : BrushState) (oid : ObjId) (pd : PaintableData)
    (uvr : UVResult) : FrameOutput :=
  let uv := uvr.uv
  let st1 :=
    if mapGet oid st.contactLost = some true then
      { st with
          lastUV := mapDel oid st.lastUV
          lastTri := mapDel oid st.lastTri
          contactLost := mapSet oid false st.contactLost }
    else st
  let lastUV := mapGet oid st1.lastUV
  let lastTri := mapGet oid st1.lastTri
  let doInterp :=
    match lastUV, lastTri with
    | some _, some lt =>
      match pd.triVerts uvr.triIndex with
      | some ct => sharesVertex ct lt
      | none => false
    | _, _ => false
  let dabs := dabsFor cfg pd doInterp lastUV uv
  ⟨{ st1 with
      lastUV := mapSet oid uv st1.lastUV
      lastTri :=
        match pd.triVerts uvr.triIndex with
        | some ct => mapSet oid ct st1.lastTri
        | none => st1.lastTri
      contactLost := mapSet oid false st1.contactLost },
    dabs, none⟩

/-- Translation of `MeshBrush.update` (`MeshBrush.ts` lines 55–260).
Branches in source order: no hit → broadcast contact-lost; hex-color name →
pick color, clear this object's continuity, no painting; no paint capability
or failed UV resolution → mark this object contact-lost; proximity gate
(`withinRange` is `paintOnProximity && hypot(d) ≤ r`, embedded by its exact
square characterization `0 ≤ r ∧ d² ≤ r²`); stale-contact reset; adjacency
test and dab interpolation; record current UV/triangle as the new last. -/
def update (cfg : BrushCfg) (st : BrushState) (fd : FrameData) : FrameOutput :=
  match fd.rayHit with
  | none => ⟨{ st with contactLost := markAllLost st.lastUV st.contactLost }, [], none⟩
  | some rh =>
    match tryPickColorFromName rh.name with
    | some picked =>
      ⟨{ st with
          brushColor := (picked.2.1, picked.2.2.1, picked.2.2.2, 1)
          lastUV := mapDel rh.objectId st.lastUV
          lastTri := mapDel rh.objectId st.lastTri
          contactLost := mapSet rh.objectId true st.contactLost },
        [], some picked.1⟩
    | none =>
      match rh.paintable with
      | none => ⟨{ st with contactLost := mapSet rh.objectId true st.contactLost }, [], none⟩
      | some pd =>
        match pd.uvResult with
        | none =>
          ⟨{ st with contactLost := mapSet rh.objectId true st.contactLost }, [], none⟩
        | some uvr =>
          let oid := rh.objectId
          let d2 := distSqWorld fd.worldOrigin rh.worldHitPos
          let withinRange := cfg.paintOnProximity &&
            decide (0 ≤ cfg.brushWorldRadius ∧ d2 ≤ cfg.brushWorldRadius * cfg.brushWorldRadius)
          if withinRange = false then
            ⟨{ st with
                lastUV := mapDel oid st.lastUV
                lastTri := mapDel oid st.lastTri
                contactLost := mapSet oid true st.contactLost }, [], none⟩
          else
            paintStep cfg st oid pd uvr

/-! ### Concrete fixtures (test meshes and frames from the spec's examples) -/

/-- The two-triangle unit quad of the end-to-end example, laid out in the
`z = 0` plane (corners spanning `X ∈ [−1/2, 1/2]`, `Y ∈ [−1/2, 1/2]`),
with UVs `(0,0),(1,0),(1,1),(0,1)` and indices `[0,1,2,0,2,3]`. -/
def quadXY : Snapshot :=
  ⟨[⟨-1/2, -1/2, 0⟩, ⟨1/2, -1/2, 0⟩, ⟨1/2, 1/2, 0⟩, ⟨-1/2, 1/2, 0⟩],
    some [(0, 0), (1, 0), (1, 1), (0, 1)], [(0, 1, 2), (0, 2, 3)]⟩

/-- The same quad laid out as the spec's sentence literally reads — corners
spanning `X ∈ [−1/2, 1/2]`, `Z ∈ [−1/2, 1/2]` (so the quad lies in the
`y = 0` plane, which contains the example ray). -/
def quadXZ : Snapshot :=
  ⟨[⟨-1/2, 0, -1/2⟩, ⟨1/2, 0, -1/2⟩, ⟨1/2, 0, 1/2⟩, ⟨-1/2, 0, 1/2⟩],
    some [(0, 0), (1, 0), (1, 1), (0, 1)], [(0, 1, 2), (0, 2, 3)]⟩

/-- The `z = 0` quad with the UV attribute missing. -/
def quadXYNoUV : Snapshot :=
  ⟨[⟨-1/2, -1/2, 0⟩, ⟨1/2, -1/2, 0⟩, ⟨1/2, 1/2, 0⟩, ⟨-1/2, 1/2, 0⟩],
    none, [(0, 1, 2), (0, 2, 3)]⟩

/-- A UV-less mesh spanning `X ∈ [−1, 1]`, `Z ∈ [−1, 1]` in the `y = 0`
plane, for the planar-fallback corner examples. -/
def planarQuad : Snapshot :=
  ⟨[⟨-1, 0, -1⟩, ⟨1, 0, -1⟩, ⟨1, 0, 1⟩, ⟨-1, 0, 1⟩], none, [(0, 1, 2), (0, 2, 3)]⟩

/-- Default brush configuration: radius 10 px, proximity painting on,
proximity radius 0.05 m, max ray distance 10 m. -/
def cfg0 : BrushCfg := ⟨10, true, 1/20, 10⟩

/-- A paintable answering UV `(1/10, 0)` on triangle 3 (vertices 2,5,6) on a
1024×1024 canvas. -/
def pd0 : PaintableData :=
  ⟨some ⟨(1/10, 0), 3, ⟨0, 0, 0⟩⟩, 1024, 1024, fun i => if i = 3 then some (2, 5, 6) else none⟩

/-- Brush state mid-stroke on object 7: last UV `(0,0)`, last triangle
`(0,1,2)`, no contact-lost marks. -/
def st0 : BrushState := ⟨[(7, (0, 0))], [(7, (0, 1, 2))], [], (0, 0, 0, 1)⟩

/-- A frame whose hit lands on object 7 exactly at proximity distance
`1/20` (the inclusive boundary), on the paintable `pd0`. -/
def fd0 : FrameData := ⟨⟨0, 0, 0⟩, some ⟨⟨0, 0, 1/20⟩, "wall", 7, some pd0⟩⟩

/-- Brush state tracking (only) object 5 in the last-UV map. -/
def stC3 : BrushState := ⟨[(5, (0, 0))], [], [], (0, 0, 0, 1)⟩

/-- A frame hitting object 7, which has no paint capability. -/
def fdC3 : FrameData := ⟨⟨0, 0, 0⟩, some ⟨⟨0, 0, 0⟩, "wall", 7, none⟩⟩

/-- A frame with no ray hit at all. -/
def fdNoHit : FrameData := ⟨⟨0, 0, 0⟩, none⟩

/-- A frame hitting a palette object whose name carries a hex color token. -/
def fdPick : FrameData := ⟨⟨0, 0, 0⟩, some ⟨⟨0, 0, 0⟩, "Palette_#1a2b3c_swatch", 9, none⟩⟩

/-! ### Helper lemmas: continuity maps -/

theorem mapGet_mapDel {α : Type} (k j : ObjId) (m : List (ObjId × α)) :
    mapGet j (mapDel k m) = if j = k then none else mapGet j m := by
  induction m with
  | nil => by_cases hj : j = k <;> simp [mapDel, mapGet, hj]
  | cons p ps ih =>
    by_cases hp : p.1 = k
    · by_cases hj : j = k
      · rw [mapDel, if_pos hp, ih, if_pos hj, if_pos hj]
      · rw [mapDel, if_pos hp, ih, if_neg hj, if_neg hj, mapGet,
          if_neg (fun e : p.1 = j => hj (e.symm.trans hp))]
    · by_cases hj : j = k
      · rw [mapDel, if_neg hp, mapGet, if_neg (fun e : p.1 = j => hp (e.trans hj)), ih,
          if_pos hj, if_pos hj]
      · rw [mapDel, if_neg hp, mapGet, ih, if_neg hj, if_neg hj, mapGet]

theorem mapGet_mapSet {α : Type} (k j : ObjId) (v : α) (m : List (ObjId × α)) :
    mapGet j (mapSet k v m) = if j = k then some v else mapGet j m := by
  by_cases hj : j = k
  · rw [mapSet, mapGet, if_pos (show (k, v).1 = j from hj.symm), if_pos hj]
  · rw [mapSet, mapGet, if_neg (show ¬ (k, v).1 = j from fun e => hj e.symm),
      mapGet_mapDel, if_neg hj, if_neg hj]

theorem mapGet_some_mem {α : Type} (j : ObjId) (v : α) (m : List (ObjId × α))
    (h : mapGet j m = some v) : ∃ p ∈ m, p.1 = j := by
  induction m with
  | nil => simp [mapGet] at h
  | cons p ps ih =>
    rw [mapGet] at h
    by_cases hp : p.1 = j
    · exact ⟨p, List.mem_cons_self p ps, hp⟩
    · rw [if_neg hp] at h
      obtain ⟨q, hq, hq1⟩ := ih h
      exact ⟨q, List.mem_cons_of_mem p hq, hq1⟩

theorem mapGet_markAllLost (j : ObjId) (tracked : List (ObjId × (ℚ × ℚ)))
    (cl : List (ObjId × Bool)) :
    mapGet j (markAllLost tracked cl) =
      if ∃ p ∈ tracked, p.1 = j then some true else mapGet j cl := by
  induction tracked generalizing cl with
  | nil => simp [markAllLost]
  | cons p ps ih =>
    have hstep : markAllLost (p :: ps) cl = markAllLost ps (mapSet p.1 true cl) := rfl
    rw [hstep, ih, mapGet_mapSet]
    by_cases hps : ∃ q ∈ ps, q.1 = j
    · rw [if_pos hps, if_pos ⟨hps.choose, List.mem_cons_of_mem p hps.choose_spec.1,
        hps.choose_spec.2⟩]
    · rw [if_neg hps]
      by_cases hp : j = p.1
      · rw [if_pos hp, if_pos ⟨p, List.mem_cons_self p ps, hp.symm⟩]
      · rw [if_neg hp, if_neg ?_]
        rintro ⟨q, hq, hq1⟩
        rcases List.mem_cons.mp hq with rfl | hq2
        · exact hp hq1.symm
        · exact hps ⟨q, hq2, hq1⟩

/-! ### Helper lemmas: the closest-hit scan -/

theorem scanClosest_eq_none_iff (f : ℕ → Option MTHit) (n : ℕ) :
    scanClosest f n = none ↔ ∀ i < n, f i = none := by
  induction n with
  | zero => simp [scanClosest]
  | succ n ih =>
    rw [scanClosest]
    cases hfn : f n with
    | none =>
      simp only [ih]
      constructor
      · intro h i hi
        rcases Nat.lt_succ_iff_lt_or_eq.mp hi with hi2 | rfl
        · exact h i hi2
        · exact hfn
      · intro h i hi
        exact h i (Nat.lt_succ_of_lt hi)
    | some h =>
      have hne : ∃ i < n + 1, f i ≠ none := ⟨n, Nat.lt_succ_self n, by rw [hfn]; simp⟩
      cases hb : scanClosest f n with
      | none =>
        simp only []
        constructor
        · intro hcontr
          cases hcontr
        · intro hall
          obtain ⟨i, hi, hfi⟩ := hne
          exact absurd (hall i hi) hfi
      | some jh =>
        constructor
        · intro hcontr
          by_cases hlt : h.t < jh.2.t <;> simp [hlt] at hcontr
        · intro hall
          obtain ⟨i, hi, hfi⟩ := hne
          exact absurd (hall i hi) hfi

theorem scanClosest_spec (f : ℕ → Option MTHit) (n : ℕ) (j : ℕ) (h : MTHit)
    (hs : scanClosest f n = some (j, h)) :
    j < n ∧ f j = some h ∧ ∀ i < n, ∀ h2, f i = some h2 → h.t ≤ h2.t := by
  induction n generalizing j h with
  | zero => simp [scanClosest] at hs
  | succ n ih =>
    rw [scanClosest] at hs
    cases hfn : f n with
    | none =>
      simp only [hfn] at hs
      obtain ⟨hj, hfj, hmin⟩ := ih j h hs
      refine ⟨Nat.lt_succ_of_lt hj, hfj, ?_⟩
      intro i hi h2 hfi
      rcases Nat.lt_succ_iff_lt_or_eq.mp hi with hi2 | rfl
      · exact hmin i hi2 h2 hfi
      · rw [hfn] at hfi; cases hfi
    | some hn =>
      cases hb : scanClosest f n with
      | none =>
        simp only [hfn, hb] at hs
        obtain ⟨rfl, rfl⟩ := Prod.mk.inj (Option.some.inj hs)
        refine ⟨Nat.lt_succ_self n, hfn, ?_⟩
        intro i hi h2 hfi
        rcases Nat.lt_succ_iff_lt_or_eq.mp hi with hi2 | rfl
        · exact absurd hfi (by rw [(scanClosest_eq_none_iff f n).mp hb i hi2]; simp)
        · rw [hfn] at hfi
          rw [Option.some.inj hfi]
      | some jh =>
        simp only [hfn, hb] at hs
        obtain ⟨hjn, hfjh, hminb⟩ := ih jh.1 jh.2 (by rw [hb])
        by_cases hlt : hn.t < jh.2.t
        · rw [if_pos hlt] at hs
          obtain ⟨rfl, rfl⟩ := Prod.mk.inj (Option.some.inj hs)
          refine ⟨Nat.lt_succ_self n, hfn, ?_⟩
          intro i hi h2 hfi
          rcases Nat.lt_succ_iff_lt_or_eq.mp hi with hi2 | rfl
          · exact le_trans (le_of_lt hlt) (hminb i hi2 h2 hfi)
          · rw [hfn] at hfi
            rw [Option.some.inj hfi]
        · rw [if_neg hlt] at hs
          have hjh : jh = (j, h) := Option.some.inj hs
          subst hjh
          refine ⟨Nat.lt_succ_of_lt hjn, hfjh, ?_⟩
          intro i hi h2 hfi
          rcases Nat.lt_succ_iff_lt_or_eq.mp hi with hi2 | rfl
          · exact hminb i hi2 h2 hfi
          · rw [hfn] at hfi
            rw [← Option.some.inj hfi]
            exact le_of_not_lt hlt

theorem scanClosest_congr (f g : ℕ → Option MTHit) (hfg : ∀ i, f i = g i) (n : ℕ) :
    scanClosest f n = scanClosest g n := by
  induction n with
  | zero => rfl
  | succ n ih => rw [scanClosest, scanClosest, ih, hfg n]

theorem scanClosest_isSome (f : ℕ → Option MTHit) (n i : ℕ) (h : MTHit)
    (hi : i < n) (hf : f i = some h) : ∃ jh, scanClosest f n = some jh := by
  cases hs : scanClosest f n with
  | none => exact absurd hf (by rw [(scanClosest_eq_none_iff f n).mp hs i hi]; simp)
  | some jh => exact ⟨jh, rfl⟩

/-! ### Helper lemmas: the exact intersection test -/

theorem Vec3.ext2 (a b : Vec3) (hx : a.x = b.x) (hy : a.y = b.y) (hz : a.z = b.z) :
    a = b := by
  cases a; cases b; simp_all

theorem mtEps_pos : 0 < mtEps := by norm_num [mtEps]

theorem hitEps_pos : 0 < hitEps := by norm_num [hitEps]

/-- Inversion of the Möller–Trumbore test: a returned hit satisfies the
barycentric window, clears the `t` threshold, and — by Cramer's rule in exact
arithmetic — the point `orig + t·dir` is exactly the barycentric combination
`(1−u−v)·p0 + u·p1 + v·p2`. -/
theorem mt_some_spec (orig dir p0 p1 p2 : Vec3) (h : MTHit)
    (hmt : rayTriangleIntersectMollerTrumbore orig dir p0 p1 p2 = some h) :
    0 ≤ h.u ∧ h.u ≤ 1 ∧ 0 ≤ h.v ∧ h.u + h.v ≤ 1 ∧ mtEps < h.t ∧
    hitPointAt orig dir h.t =
      ⟨(1 - h.u - h.v) * p0.x + h.u * p1.x + h.v * p2.x,
       (1 - h.u - h.v) * p0.y + h.u * p1.y + h.v * p2.y,
       (1 - h.u - h.v) * p0.z + h.u * p1.z + h.v * p2.z⟩ := by
  simp only [rayTriangleIntersectMollerTrumbore] at hmt
  split_ifs at hmt with h1 h2 h3 h4
  obtain rfl := Option.some.inj hmt
  push_neg at h1 h2 h3 h4
  have hdet : dot (vsub p1 p0) (cross dir (vsub p2 p0)) ≠ 0 := by
    intro hz
    rw [hz] at h1
    have h0 : -mtEps < 0 := neg_lt_zero.mpr mtEps_pos
    linarith [h1 h0, mtEps_pos]
  refine ⟨h2.1, h2.2, h3.1, h3.2, h4, ?_⟩
  simp only [dot, cross, vsub] at hdet
  apply Vec3.ext2 <;>
    (simp only [hitPointAt, dot, cross, vsub]; field_simp; ring)

/-- Inversion of the per-triangle scan candidate. -/
theorem triCandidate_some_spec (s : Snapshot) (o d : Vec3) (maxD : ℚ) (i : ℕ) (h : MTHit)
    (hc : triCandidate s o d maxD i = some h) :
    rayTriangleIntersectMollerTrumbore o d
        (posAt s (triAt s i).1) (posAt s (triAt s i).2.1) (posAt s (triAt s i).2.2) = some h ∧
      hitEps < h.t ∧ h.t ≤ maxD := by
  rw [triCandidate] at hc
  cases hmt : rayTriangleIntersectMollerTrumbore o d
      (posAt s (triAt s i).1) (posAt s (triAt s i).2.1) (posAt s (triAt s i).2.2) with
  | none =>
    simp only [hmt] at hc
    exact Option.noConfusion hc
  | some h2 =>
    simp only [hmt] at hc
    by_cases hself : hitEps < h2.t ∧ h2.t ≤ maxD
    · rw [if_pos hself] at hc
      obtain rfl := Option.some.inj hc
      exact ⟨rfl, hself⟩
    · rw [if_neg hself] at hc
      exact Option.noConfusion hc

/-- A degenerate (single-point) triangle is always rejected. -/
theorem mt_degenerate (o d p : Vec3) :
    rayTriangleIntersectMollerTrumbore o d p p p = none := by
  have hz : vsub p p = ⟨0, 0, 0⟩ := by simp [vsub]
  rw [rayTriangleIntersectMollerTrumbore]
  simp only [hz]
  rw [if_pos]
  constructor <;> simp [dot, cross, mtEps]

/-- Triangle indices at or beyond `tris.length` read the default `(0,0,0)`
triple, a degenerate triangle, so they never produce a candidate. -/
theorem triCandidate_none_of_le (s : Snapshot) (o d : Vec3) (maxD : ℚ) (i : ℕ)
    (hi : s.tris.length ≤ i) : triCandidate s o d maxD i = none := by
  have htri : triAt s i = (0, 0, 0) := List.getD_eq_default _ _ hi
  rw [triCandidate, htri]
  dsimp only
  rw [mt_degenerate]

/-! ### Helper lemmas: convexity and the AABB prune -/

theorem convex_le_max (w0 w1 w2 a b c : ℚ) (h0 : 0 ≤ w0) (h1 : 0 ≤ w1) (h2 : 0 ≤ w2)
    (hs : w0 + w1 + w2 = 1) : w0 * a + w1 * b + w2 * c ≤ max (max a b) c := by
  have ha : a ≤ max (max a b) c := le_trans (le_max_left a b) (le_max_left _ c)
  have hb : b ≤ max (max a b) c := le_trans (le_max_right a b) (le_max_left _ c)
  have hc : c ≤ max (max a b) c := le_max_right _ c
  have hM : w0 * max (max a b) c + w1 * max (max a b) c + w2 * max (max a b) c
      = max (max a b) c := by
    have hfac : w0 * max (max a b) c + w1 * max (max a b) c + w2 * max (max a b) c
        = (w0 + w1 + w2) * max (max a b) c := by ring
    rw [hfac, hs, one_mul]
  linarith [mul_le_mul_of_nonneg_left ha h0, mul_le_mul_of_nonneg_left hb h1,
    mul_le_mul_of_nonneg_left hc h2]

theorem min_le_convex (w0 w1 w2 a b c : ℚ) (h0 : 0 ≤ w0) (h1 : 0 ≤ w1) (h2 : 0 ≤ w2)
    (hs : w0 + w1 + w2 = 1) : min (min a b) c ≤ w0 * a + w1 * b + w2 * c := by
  have ha : min (min a b) c ≤ a := le_trans (min_le_left _ c) (min_le_left a b)
  have hb : min (min a b) c ≤ b := le_trans (min_le_left _ c) (min_le_right a b)
  have hc : min (min a b) c ≤ c := min_le_right _ c
  have hM : w0 * min (min a b) c + w1 * min (min a b) c + w2 * min (min a b) c
      = min (min a b) c := by
    have hfac : w0 * min (min a b) c + w1 * min (min a b) c + w2 * min (min a b) c
        = (w0 + w1 + w2) * min (min a b) c := by ring
    rw [hfac, hs, one_mul]
  linarith [mul_le_mul_of_nonneg_left ha h0, mul_le_mul_of_nonneg_left hb h1,
    mul_le_mul_of_nonneg_left hc h2]

theorem seg_between (a b t m : ℚ) (ht : 0 ≤ t) (htm : t ≤ m) :
    min a (a + b * m) ≤ a + b * t ∧ a + b * t ≤ max a (a + b * m) := by
  rcases le_total 0 b with hb | hb
  · constructor
    · exact le_trans (min_le_left _ _) (by nlinarith)
    · exact le_trans (by nlinarith) (le_max_right _ _)
  · constructor
    · exact le_trans (min_le_right _ _) (by nlinarith)
    · exact le_trans (by nlinarith) (le_max_left _ _)

/-- A triangle with a valid candidate hit always survives the AABB prune:
the hit point lies in both boxes, so they overlap.  This is the exactness of
the "pure optimization" filter. -/
theorem aabbOverlap_of_candidate (s : Snapshot) (o d : Vec3) (maxD : ℚ) (i : ℕ) (h : MTHit)
    (hc : triCandidate s o d maxD i = some h) : aabbOverlap s i o d maxD = true := by
  obtain ⟨hmt, hte, htm⟩ := triCandidate_some_spec s o d maxD i h hc
  obtain ⟨hu0, hu1, hv0, huv, hmte, hpt⟩ := mt_some_spec _ _ _ _ _ _ hmt
  have ht0 : 0 ≤ h.t := le_of_lt (lt_trans mtEps_pos hmte)
  have hw0 : 0 ≤ 1 - h.u - h.v := by linarith
  have hsum : (1 - h.u - h.v) + h.u + h.v = 1 := by ring
  have hx := congrArg Vec3.x hpt
  have hy := congrArg Vec3.y hpt
  have hz := congrArg Vec3.z hpt
  simp only [hitPointAt] at hx hy hz
  have hsegx := seg_between o.x d.x h.t maxD ht0 htm
  have hsegy := seg_between o.y d.y h.t maxD ht0 htm
  have hsegz := seg_between o.z d.z h.t maxD ht0 htm
  rw [aabbOverlap]
  simp only [triAABBMin, triAABBMax, rayAABBMin, rayAABBMax, Bool.not_eq_eq_eq_not,
    Bool.not_true, Bool.or_eq_false_iff, decide_eq_false_iff_not, not_lt]
  refine ⟨⟨⟨⟨⟨?_, ?_⟩, ?_⟩, ?_⟩, ?_⟩, ?_⟩
  · linarith [hsegx.1, hx, convex_le_max (1 - h.u - h.v) h.u h.v
      (posAt s (triAt s i).1).x (posAt s (triAt s i).2.1).x (posAt s (triAt s i).2.2).x
      hw0 hu0 hv0 hsum]
  · linarith [hsegx.2, hx, min_le_convex (1 - h.u - h.v) h.u h.v
      (posAt s (triAt s i).1).x (posAt s (triAt s i).2.1).x (posAt s (triAt s i).2.2).x
      hw0 hu0 hv0 hsum]
  · linarith [hsegy.1, hy, convex_le_max (1 - h.u - h.v) h.u h.v
      (posAt s (triAt s i).1).y (posAt s (triAt s i).2.1).y (posAt s (triAt s i).2.2).y
      hw0 hu0 hv0 hsum]
  · linarith [hsegy.2, hy, min_le_convex (1 - h.u - h.v) h.u h.v
      (posAt s (triAt s i).1).y (posAt s (triAt s i).2.1).y (posAt s (triAt s i).2.2).y
      hw0 hu0 hv0 hsum]
  · linarith [hsegz.1, hz, convex_le_max (1 - h.u - h.v) h.u h.v
      (posAt s (triAt s i).1).z (posAt s (triAt s i).2.1).z (posAt s (triAt s i).2.2).z
      hw0 hu0 hv0 hsum]
  · linarith [hsegz.2, hz, min_le_convex (1 - h.u - h.v) h.u h.v
      (posAt s (triAt s i).1).z (posAt s (triAt s i).2.1).z (posAt s (triAt s i).2.2).z
      hw0 hu0 hv0 hsum]

/-- Pointwise, the pruned candidate equals the brute-force candidate. -/
theorem triCandidatePruned_eq (s : Snapshot) (o d : Vec3) (maxD : ℚ) (i : ℕ) :
    triCandidatePruned s o d maxD i = triCandidate s o d maxD i := by
  rw [triCandidatePruned]
  by_cases hov : aabbOverlap s i o d maxD = true
  · rw [if_pos hov]
  · rw [if_neg hov]
    cases hc : triCandidate s o d maxD i with
    | none => rfl
    | some h => exact absurd (aabbOverlap_of_candidate s o d maxD i h hc) hov

/-- The whole resolution is unchanged by the AABB pruning. -/
theorem getUV_eq_noPrune (s : Snapshot) (pf : Bool) (o d : Vec3) (maxD : ℚ) :
    getUVFromLocalRay s pf o d maxD = getUVFromLocalRayNoPrune s pf o d maxD := by
  unfold getUVFromLocalRay getUVFromLocalRayNoPrune
  rw [scanClosest_congr (triCandidatePruned s o d maxD) (triCandidate s o d maxD)
    (triCandidatePruned_eq s o d maxD) s.tris.length]

/-! ### Helper lemmas: the exact `⌈√q / s⌉` computation -/

theorem rat_le_num_succ (q : ℚ) (hq : 0 ≤ q) : q ≤ ((q.num.toNat + 1 : ℕ) : ℚ) := by
  have hnum : (0 : ℤ) ≤ q.num := Rat.num_nonneg.mpr hq
  have hden : (0 : ℚ) < (q.den : ℚ) := by exact_mod_cast q.den_pos
  have hden1 : (1 : ℚ) ≤ (q.den : ℚ) := by exact_mod_cast q.den_pos
  have hq_le : q ≤ (q.num : ℚ) := by
    have hnq : (0 : ℚ) ≤ (q.num : ℚ) := by exact_mod_cast hnum
    conv_lhs => rw [← Rat.num_div_den q]
    rw [div_le_iff₀ hden]
    nlinarith
  have hcast : ((q.num.toNat + 1 : ℕ) : ℚ) = (q.num : ℚ) + 1 := by
    have h3 : (q.num.toNat : ℤ) = q.num := Int.toNat_of_nonneg hnum
    have h4 : ((q.num.toNat : ℕ) : ℚ) = ((q.num : ℤ) : ℚ) := by
      exact_mod_cast congrArg (fun z : ℤ => (z : ℚ)) h3
    push_cast
    rw [h4]
  rw [hcast]
  linarith

theorem leastSqGe_spec (q s2 : ℚ) : ∀ fuel n,
    q ≤ ((((n + fuel : ℕ)) : ℚ) * s2) * ((((n + fuel : ℕ)) : ℚ) * s2) →
    n ≤ leastSqGe q s2 n fuel ∧
    q ≤ ((leastSqGe q s2 n fuel : ℚ) * s2) * ((leastSqGe q s2 n fuel : ℚ) * s2) ∧
    ∀ m, n ≤ m → m < leastSqGe q s2 n fuel → ¬ q ≤ ((m : ℚ) * s2) * ((m : ℚ) * s2) := by
  intro fuel
  induction fuel with
  | zero =>
    intro n hfuel
    rw [Nat.add_zero] at hfuel
    refine ⟨le_rfl, ?_, ?_⟩
    · exact hfuel
    · intro m hm hm2
      exact absurd (lt_of_le_of_lt hm hm2) (lt_irrefl n)
  | succ fuel ih =>
    intro n hfuel
    rw [leastSqGe]
    by_cases hcond : q ≤ ((n : ℚ) * s2) * ((n : ℚ) * s2)
    · rw [if_pos hcond]
      refine ⟨le_rfl, hcond, ?_⟩
      intro m hm hm2
      exact absurd (lt_of_le_of_lt hm hm2) (lt_irrefl n)
    · rw [if_neg hcond]
      have hfuel2 : q ≤ ((((n + 1) + fuel : ℕ)) : ℚ) * s2 * (((((n + 1) + fuel : ℕ)) : ℚ) * s2) := by
        have harr : (n + 1) + fuel = n + (fuel + 1) := by omega
        rw [harr]
        exact hfuel
      obtain ⟨hge, hsat, hmin⟩ := ih (n + 1) hfuel2
      refine ⟨le_trans (Nat.le_succ n) hge, hsat, ?_⟩
      intro m hm hm2
      rcases Nat.lt_or_ge m (n + 1) with hm3 | hm3
      · have hmn : m = n := by omega
        rw [hmn]
        exact hcond
      · exact hmin m hm3 hm2

theorem ceilSqrtDiv_le_iff (q s2 : ℚ) (hq : 0 ≤ q) (hs : 1 ≤ s2) (n : ℕ) :
    ceilSqrtDiv q s2 ≤ n ↔ q ≤ ((n : ℚ) * s2) * ((n : ℚ) * s2) := by
  have hs0 : (0 : ℚ) ≤ s2 := le_trans zero_le_one hs
  have hN1 : (1 : ℚ) ≤ ((q.num.toNat + 1 : ℕ) : ℚ) := by exact_mod_cast Nat.le_add_left 1 q.num.toNat
  have hqN : q ≤ ((q.num.toNat + 1 : ℕ) : ℚ) := rat_le_num_succ q hq
  have hfuel : q ≤ (((0 + (q.num.toNat + 1) : ℕ)) : ℚ) * s2 *
      ((((0 + (q.num.toNat + 1) : ℕ)) : ℚ) * s2) := by
    rw [Nat.zero_add]
    have h1 : ((q.num.toNat + 1 : ℕ) : ℚ) ≤ ((q.num.toNat + 1 : ℕ) : ℚ) * s2 :=
      le_mul_of_one_le_right (by linarith) hs
    have h2 : ((q.num.toNat + 1 : ℕ) : ℚ) * s2 ≤
        (((q.num.toNat + 1 : ℕ) : ℚ) * s2) * (((q.num.toNat + 1 : ℕ) : ℚ) * s2) :=
      le_mul_of_one_le_left (by linarith) (by nlinarith)
    linarith
  obtain ⟨hge, hsat, hmin⟩ := leastSqGe_spec q s2 (q.num.toNat + 1) 0 hfuel
  rw [ceilSqrtDiv]
  constructor
  · intro hle
    have hc : ((leastSqGe q s2 0 (q.num.toNat + 1) : ℕ) : ℚ) ≤ (n : ℚ) := by exact_mod_cast hle
    have hsq := mul_self_le_mul_self
      (mul_nonneg (Nat.cast_nonneg (leastSqGe q s2 0 (q.num.toNat + 1))) hs0)
      (mul_le_mul_of_nonneg_right hc hs0)
    exact le_trans hsat hsq
  · intro hqn
    by_contra hgt
    push_neg at hgt
    exact hmin n (Nat.zero_le n) hgt hqn

theorem ceilSqrtDiv_eq_ceil (q : ℚ) (hq : 0 ≤ q) (s : ℕ) (hs : 1 ≤ s) :
    ceilSqrtDiv q (s : ℚ) = ⌈Real.sqrt ((q : ℝ)) / ((s : ℕ) : ℝ)⌉₊ := by
  have hqR : (0 : ℝ) ≤ ((q : ℚ) : ℝ) := by exact_mod_cast hq
  have hs0R : (0 : ℝ) < ((s : ℕ) : ℝ) := by exact_mod_cast Nat.lt_of_lt_of_le Nat.zero_lt_one hs
  have hsQ : (1 : ℚ) ≤ ((s : ℕ) : ℚ) := by exact_mod_cast hs
  have key : ∀ n : ℕ, (⌈Real.sqrt ((q : ℝ)) / ((s : ℕ) : ℝ)⌉₊ ≤ n ↔
      q ≤ ((n : ℚ) * (s : ℚ)) * ((n : ℚ) * (s : ℚ))) := by
    intro n
    rw [Nat.ceil_le, div_le_iff₀ hs0R]
    constructor
    · intro hle
      have h1 := mul_self_le_mul_self (Real.sqrt_nonneg _) hle
      rw [Real.mul_self_sqrt hqR] at h1
      exact_mod_cast h1
    · intro hle
      have hns : (0 : ℝ) ≤ ((n : ℕ) : ℝ) * ((s : ℕ) : ℝ) :=
        mul_nonneg (Nat.cast_nonneg n) (le_of_lt hs0R)
      have h2 : Real.sqrt ((q : ℝ)) ≤
          Real.sqrt ((((n : ℕ) : ℝ) * ((s : ℕ) : ℝ)) * (((n : ℕ) : ℝ) * ((s : ℕ) : ℝ))) :=
        Real.sqrt_le_sqrt (by exact_mod_cast hle)
      rwa [Real.sqrt_mul_self hns] at h2
  have h1 := (key (ceilSqrtDiv q (s : ℚ))).mpr ((ceilSqrtDiv_le_iff q (s : ℚ) hq hsQ _).mp le_rfl)
  have h2 := (ceilSqrtDiv_le_iff q (s : ℚ) hq hsQ _).mpr ((key _).mp le_rfl)
  exact le_antisymm h2 h1

theorem one_le_stepSizeOf (r : ℕ) : 1 ≤ stepSizeOf r := Nat.le_max_left 1 (r / 2)

theorem distSqPx_nonneg (luv uv : ℚ × ℚ) (w h : ℕ) : 0 ≤ distSqPx luv uv w h := by
  rw [distSqPx]
  have h1 := mul_self_nonneg (uv.1 * w - luv.1 * w)
  have h2 := mul_self_nonneg (uv.2 * h - luv.2 * h)
  linarith

theorem distSqWorld_nonneg (a b : Vec3) : 0 ≤ distSqWorld a b := by
  rw [distSqWorld]
  have h1 := mul_self_nonneg (a.x - b.x)
  have h2 := mul_self_nonneg (a.y - b.y)
  have h3 := mul_self_nonneg (a.z - b.z)
  linarith

/-- `Math.hypot(d) ≤ r` over the reals is exactly the square test the
embedding uses in `update`. -/
theorem sqrt_le_iff_sq (d2 r : ℚ) (hd2 : 0 ≤ d2) :
    Real.sqrt ((d2 : ℝ)) ≤ ((r : ℚ) : ℝ) ↔ (0 ≤ r ∧ d2 ≤ r * r) := by
  constructor
  · intro hle
    have hr0 : (0 : ℝ) ≤ ((r : ℚ) : ℝ) := le_trans (Real.sqrt_nonneg _) hle
    have h1 := mul_self_le_mul_self (Real.sqrt_nonneg _) hle
    rw [Real.mul_self_sqrt (by exact_mod_cast hd2)] at h1
    exact ⟨by exact_mod_cast hr0, by exact_mod_cast h1⟩
  · rintro ⟨hr0, hle⟩
    have h2 : Real.sqrt ((d2 : ℝ)) ≤ Real.sqrt (((r : ℚ) : ℝ) * ((r : ℚ) : ℝ)) :=
      Real.sqrt_le_sqrt (by exact_mod_cast hle)
    rwa [Real.sqrt_mul_self (by exact_mod_cast hr0)] at h2

theorem clamp01_bounds (a : ℚ) : 0 ≤ clamp01 a ∧ clamp01 a ≤ 1 :=
  ⟨le_min (le_max_right a 0) zero_le_one, min_le_right _ 1⟩

/-! ### Claim theorems: geometry -/

/-- Claim C4: for every snapshot and local ray with finite `maxDistance`, the
AABB-pruned scan is equivalent to the brute-force scan — `getUVFromLocalRay`
returns the same result with or without pruning — because no triangle whose
AABB fails the axis-aligned overlap test against the ray's AABB can yield a
valid hit with `t > 1e-6` and `t ≤ maxDistance`. -/
theorem getUVFromLocalRay_prune_equiv (s : Snapshot) (pf : Bool) (o d : Vec3) (maxD : ℚ) :
    getUVFromLocalRay s pf o d maxD = getUVFromLocalRayNoPrune s pf o d maxD ∧
    ∀ i h, triCandidate s o d maxD i = some h → aabbOverlap s i o d maxD = true :=
  ⟨getUV_eq_noPrune s pf o d maxD, fun i h hc => aabbOverlap_of_candidate s o d maxD i h hc⟩

theorem getUVFromLocalRay_prune_equiv_witness :
    getUVFromLocalRay quadXY true ⟨0, 0, 1⟩ ⟨0, 0, -1⟩ 10
        = getUVFromLocalRayNoPrune quadXY true ⟨0, 0, 1⟩ ⟨0, 0, -1⟩ 10 ∧
      aabbOverlap quadXY 0 ⟨0, 0, 1⟩ ⟨0, 0, -1⟩ 10 = true :=
  ⟨(getUVFromLocalRay_prune_equiv quadXY true ⟨0, 0, 1⟩ ⟨0, 0, -1⟩ 10).1,
    (getUVFromLocalRay_prune_equiv quadXY true ⟨0, 0, 1⟩ ⟨0, 0, -1⟩ 10).2 0 ⟨1, 0, 1/2⟩
      (by with_unfolding_all decide)⟩

/-- Claim C1 counterexample: the claim says a valid intersection forces
`getUVFromLocalRay` to return a hit, with no condition on UVs.  On a mesh
without UVs and with `planarFallback` disabled, triangle 0 has a valid
intersection (`t = 1`, `u = 0`, `v = 1/2`) yet the function returns `none`
(lines 423–450 fall through to `return null`). -/
theorem getUVFromLocalRay_missing_uv_counterexample :
    triCandidate quadXYNoUV ⟨0, 0, 1⟩ ⟨0, 0, -1⟩ 10 0 = some ⟨1, 0, 1/2⟩ ∧
    getUVFromLocalRay quadXYNoUV false ⟨0, 0, 1⟩ ⟨0, 0, -1⟩ 10 = none := by
  constructor <;> with_unfolding_all decide

/-- Claim C1 (amended): for every geometry snapshot and local ray, *provided
the mesh carries UVs or planar fallback is enabled*: if at least one triangle
has a valid intersection (the per-triangle candidate test: |det| ≥ 1e-8,
0 ≤ u ≤ 1, 0 ≤ v, u+v ≤ 1, t > 1e-6, t ≤ maxDistance), `getUVFromLocalRay`
returns a hit on a triangle whose candidate `t` is minimal among all valid
candidates; if no triangle qualifies it returns `none`. -/
theorem getUVFromLocalRay_closest_valid_hit (s : Snapshot) (pf : Bool) (o d : Vec3) (maxD : ℚ)
    (huv : s.uvs.isSome = true ∨ pf = true) :
    ((∀ i, triCandidate s o d maxD i = none) → getUVFromLocalRay s pf o d maxD = none) ∧
    (∀ i h, triCandidate s o d maxD i = some h →
      ∃ res hb, getUVFromLocalRay s pf o d maxD = some res ∧
        triCandidate s o d maxD res.triIndex = some hb ∧
        res.localHit = hitPointAt o d hb.t ∧
        ∀ j h2, triCandidate s o d maxD j = some h2 → hb.t ≤ h2.t) := by
  have hcongr : ∀ j, triCandidatePruned s o d maxD j = triCandidate s o d maxD j :=
    triCandidatePruned_eq s o d maxD
  constructor
  · intro hall
    have hnone : scanClosest (triCandidatePruned s o d maxD) s.tris.length = none :=
      (scanClosest_eq_none_iff _ _).mpr (fun i _ => by rw [hcongr]; exact hall i)
    simp [getUVFromLocalRay, hnone]
  · intro i h hc
    have hi : i < s.tris.length := by
      by_contra hge
      push_neg at hge
      rw [triCandidate_none_of_le s o d maxD i hge] at hc
      exact Option.noConfusion hc
    obtain ⟨jh, hsc⟩ := scanClosest_isSome (triCandidatePruned s o d maxD) s.tris.length i h hi
      (by rw [hcongr]; exact hc)
    obtain ⟨hjlt, hfj, hmin⟩ := scanClosest_spec _ _ jh.1 jh.2 (by rw [hsc])
    rw [hcongr] at hfj
    have hminAll : ∀ j h2, triCandidate s o d maxD j = some h2 → jh.2.t ≤ h2.t := by
      intro j h2 hj
      by_cases hjl : j < s.tris.length
      · exact hmin j hjl h2 (by rw [hcongr]; exact hj)
      · push_neg at hjl
        rw [triCandidate_none_of_le s o d maxD j hjl] at hj
        exact Option.noConfusion hj
    cases huvs : s.uvs with
    | some uvsl =>
      refine ⟨⟨(clamp01 ((1 - jh.2.u - jh.2.v) * (uvAt uvsl (triAt s jh.1).1).1 +
          jh.2.u * (uvAt uvsl (triAt s jh.1).2.1).1 +
          jh.2.v * (uvAt uvsl (triAt s jh.1).2.2).1),
        clamp01 ((1 - jh.2.u - jh.2.v) * (uvAt uvsl (triAt s jh.1).1).2 +
          jh.2.u * (uvAt uvsl (triAt s jh.1).2.1).2 +
          jh.2.v * (uvAt uvsl (triAt s jh.1).2.2).2)), jh.1, hitPointAt o d jh.2.t⟩,
        jh.2, ?_, hfj, rfl, hminAll⟩
      simp [getUVFromLocalRay, hsc, huvs]
    | none =>
      have hpf : pf = true := by
        rcases huv with huv | huv
        · rw [huvs] at huv
          simp at huv
        · exact huv
      refine ⟨⟨(clamp01 (((hitPointAt o d jh.2.t).x - meshMinX s.positions) /
          denomOr1 (meshMaxX s.positions - meshMinX s.positions)),
        clamp01 (((hitPointAt o d jh.2.t).z - meshMinZ s.positions) /
          denomOr1 (meshMaxZ s.positions - meshMinZ s.positions))),
        jh.1, hitPointAt o d jh.2.t⟩, jh.2, ?_, hfj, rfl, hminAll⟩
      simp [getUVFromLocalRay, hsc, huvs, hpf]

theorem getUVFromLocalRay_closest_valid_hit_witness :
    (quadXY.uvs.isSome = true ∨ true = true) ∧
    triCandidate quadXY ⟨0, 0, 1⟩ ⟨0, 0, -1⟩ 10 0 = some ⟨1, 0, 1/2⟩ ∧
    ∃ res hb, getUVFromLocalRay quadXY true ⟨0, 0, 1⟩ ⟨0, 0, -1⟩ 10 = some res ∧
      triCandidate quadXY ⟨0, 0, 1⟩ ⟨0, 0, -1⟩ 10 res.triIndex = some hb ∧
      res.localHit = hitPointAt ⟨0, 0, 1⟩ ⟨0, 0, -1⟩ hb.t ∧
      ∀ j h2, triCandidate quadXY ⟨0, 0, 1⟩ ⟨0, 0, -1⟩ 10 j = some h2 → hb.t ≤ h2.t :=
  ⟨Or.inl rfl, by with_unfolding_all decide,
    (getUVFromLocalRay_closest_valid_hit quadXY true ⟨0, 0, 1⟩ ⟨0, 0, -1⟩ 10 (Or.inl rfl)).2
      0 ⟨1, 0, 1/2⟩ (by with_unfolding_all decide)⟩

/-- Claim C5: when the mesh carries UVs and a valid hit with barycentric
`(u, v)` is found, the resolved UV is the componentwise clamp to `[0,1]` of
`(1−u−v)·uv0 + u·uv1 + v·uv2` over the hit triangle's vertex UVs; before
clamping the interpolated value lies (coordinatewise) within the convex hull
of the three vertex UVs — witnessed by the nonnegative barycentric weights
and the min/max envelope — and the returned UV always lies in
`[0,1] × [0,1]`. -/
theorem getUVFromLocalRay_uv_clamped_hull (s : Snapshot) (pf : Bool) (o d : Vec3) (maxD : ℚ)
    (res : UVResult) (hres : getUVFromLocalRay s pf o d maxD = some res) :
    (0 ≤ res.uv.1 ∧ res.uv.1 ≤ 1 ∧ 0 ≤ res.uv.2 ∧ res.uv.2 ≤ 1) ∧
    (∀ uvsl, s.uvs = some uvsl → ∃ u v : ℚ,
      0 ≤ u ∧ u ≤ 1 ∧ 0 ≤ v ∧ u + v ≤ 1 ∧
      res.uv.1 = clamp01 ((1 - u - v) * (uvAt uvsl (triAt s res.triIndex).1).1 +
        u * (uvAt uvsl (triAt s res.triIndex).2.1).1 +
        v * (uvAt uvsl (triAt s res.triIndex).2.2).1) ∧
      res.uv.2 = clamp01 ((1 - u - v) * (uvAt uvsl (triAt s res.triIndex).1).2 +
        u * (uvAt uvsl (triAt s res.triIndex).2.1).2 +
        v * (uvAt uvsl (triAt s res.triIndex).2.2).2) ∧
      min (min (uvAt uvsl (triAt s res.triIndex).1).1 (uvAt uvsl (triAt s res.triIndex).2.1).1)
          (uvAt uvsl (triAt s res.triIndex).2.2).1 ≤
        (1 - u - v) * (uvAt uvsl (triAt s res.triIndex).1).1 +
          u * (uvAt uvsl (triAt s res.triIndex).2.1).1 +
          v * (uvAt uvsl (triAt s res.triIndex).2.2).1 ∧
      (1 - u - v) * (uvAt uvsl (triAt s res.triIndex).1).1 +
          u * (uvAt uvsl (triAt s res.triIndex).2.1).1 +
          v * (uvAt uvsl (triAt s res.triIndex).2.2).1 ≤
        max (max (uvAt uvsl (triAt s res.triIndex).1).1 (uvAt uvsl (triAt s res.triIndex).2.1).1)
          (uvAt uvsl (triAt s res.triIndex).2.2).1 ∧
      min (min (uvAt uvsl (triAt s res.triIndex).1).2 (uvAt uvsl (triAt s res.triIndex).2.1).2)
          (uvAt uvsl (triAt s res.triIndex).2.2).2 ≤
        (1 - u - v) * (uvAt uvsl (triAt s res.triIndex).1).2 +
          u * (uvAt uvsl (triAt s res.triIndex).2.1).2 +
          v * (uvAt uvsl (triAt s res.triIndex).2.2).2 ∧
      (1 - u - v) * (uvAt uvsl (triAt s res.triIndex).1).2 +
          u * (uvAt uvsl (triAt s res.triIndex).2.1).2 +
          v * (uvAt uvsl (triAt s res.triIndex).2.2).2 ≤
        max (max (uvAt uvsl (triAt s res.triIndex).1).2 (uvAt uvsl (triAt s res.triIndex).2.1).2)
          (uvAt uvsl (triAt s res.triIndex).2.2).2) := by
  cases hscan : scanClosest (triCandidatePruned s o d maxD) s.tris.length with
  | none =>
    simp only [getUVFromLocalRay, hscan] at hres
    exact Option.noConfusion hres
  | some jh =>
    have hfj : triCandidate s o d maxD jh.1 = some jh.2 := by
      have h2 := (scanClosest_spec _ _ jh.1 jh.2 (by rw [hscan])).2.1
      rwa [triCandidatePruned_eq] at h2
    obtain ⟨hmt, hte, htm⟩ := triCandidate_some_spec s o d maxD jh.1 jh.2 hfj
    obtain ⟨hu0, hu1, hv0, huv, hmte, hpt⟩ := mt_some_spec _ _ _ _ _ _ hmt
    have hw0 : 0 ≤ 1 - jh.2.u - jh.2.v := by linarith
    have hwsum : (1 - jh.2.u - jh.2.v) + jh.2.u + jh.2.v = 1 := by ring
    cases huvs : s.uvs with
    | some uvsl =>
      simp only [getUVFromLocalRay, hscan, huvs] at hres
      obtain rfl := Option.some.inj hres
      constructor
      · exact ⟨(clamp01_bounds _).1, (clamp01_bounds _).2, (clamp01_bounds _).1,
          (clamp01_bounds _).2⟩
      · intro uvsl2 h2
        obtain rfl := Option.some.inj h2
        refine ⟨jh.2.u, jh.2.v, hu0, hu1, hv0, huv, rfl, rfl, ?_, ?_, ?_, ?_⟩
        · exact min_le_convex _ _ _ _ _ _ hw0 hu0 hv0 hwsum
        · exact convex_le_max _ _ _ _ _ _ hw0 hu0 hv0 hwsum
        · exact min_le_convex _ _ _ _ _ _ hw0 hu0 hv0 hwsum
        · exact convex_le_max _ _ _ _ _ _ hw0 hu0 hv0 hwsum
    | none =>
      cases pf with
      | false => simp [getUVFromLocalRay, hscan, huvs] at hres
      | true =>
        simp only [getUVFromLocalRay, hscan, huvs, if_true] at hres
        obtain rfl := Option.some.inj hres
        constructor
        · exact ⟨(clamp01_bounds _).1, (clamp01_bounds _).2, (clamp01_bounds _).1,
            (clamp01_bounds _).2⟩
        · intro uvsl2 h2
          exact Option.noConfusion h2

theorem getUVFromLocalRay_uv_clamped_hull_witness :
    getUVFromLocalRay quadXY true ⟨0, 0, 1⟩ ⟨0, 0, -1⟩ 10
        = some ⟨(1/2, 1/2), 0, ⟨0, 0, 0⟩⟩ ∧
    (0 ≤ (1/2 : ℚ) ∧ (1/2 : ℚ) ≤ 1 ∧ 0 ≤ (1/2 : ℚ) ∧ (1/2 : ℚ) ≤ 1) :=
  ⟨by with_unfolding_all decide,
    ((getUVFromLocalRay_uv_clamped_hull quadXY true ⟨0, 0, 1⟩ ⟨0, 0, -1⟩ 10
      ⟨(1/2, 1/2), 0, ⟨0, 0, 0⟩⟩ (by with_unfolding_all decide)).1 : _)⟩

/-- Claim C6: when the mesh lacks UVs, planar fallback resolves the UV as the
clamped normalized X/Z coordinates of the local hit point over the mesh
extents (zero-width extents falling back to denominator 1); with fallback
disabled resolution fails.  The spec's corner examples on a `[−1,1]²` mesh
are verified concretely. -/
theorem getUVFromLocalRay_planar_fallback (s : Snapshot) (o d : Vec3) (maxD : ℚ)
    (hnone : s.uvs = none) :
    getUVFromLocalRay s false o d maxD = none ∧
    (∀ res, getUVFromLocalRay s true o d maxD = some res →
      res.uv.1 = clamp01 ((res.localHit.x - meshMinX s.positions) /
        denomOr1 (meshMaxX s.positions - meshMinX s.positions)) ∧
      res.uv.2 = clamp01 ((res.localHit.z - meshMinZ s.positions) /
        denomOr1 (meshMaxZ s.positions - meshMinZ s.positions))) ∧
    getUVFromLocalRay planarQuad true ⟨-1, 1, -1⟩ ⟨0, -1, 0⟩ 10
      = some ⟨(0, 0), 0, ⟨-1, 0, -1⟩⟩ ∧
    getUVFromLocalRay planarQuad true ⟨1, 1, 1⟩ ⟨0, -1, 0⟩ 10
      = some ⟨(1, 1), 0, ⟨1, 0, 1⟩⟩ := by
  refine ⟨?_, ?_, by with_unfolding_all decide, by with_unfolding_all decide⟩
  · cases hscan : scanClosest (triCandidatePruned s o d maxD) s.tris.length with
    | none => simp [getUVFromLocalRay, hscan]
    | some jh => simp [getUVFromLocalRay, hscan, hnone]
  · intro res hres
    cases hscan : scanClosest (triCandidatePruned s o d maxD) s.tris.length with
    | none =>
      simp only [getUVFromLocalRay, hscan] at hres
      exact Option.noConfusion hres
    | some jh =>
      simp only [getUVFromLocalRay, hscan, hnone, if_true] at hres
      obtain rfl := Option.some.inj hres
      exact ⟨rfl, rfl⟩

theorem getUVFromLocalRay_planar_fallback_witness :
    planarQuad.uvs = none ∧
    getUVFromLocalRay planarQuad false ⟨-1, 1, -1⟩ ⟨0, -1, 0⟩ 10 = none :=
  ⟨rfl, (getUVFromLocalRay_planar_fallback planarQuad ⟨-1, 1, -1⟩ ⟨0, -1, 0⟩ 10 rfl).1⟩

/-- Claim C9 counterexample: read literally — the quad's corners spanning
`X ∈ [−1/2,1/2]`, `Z ∈ [−1/2,1/2]` put the quad in the `y = 0` plane — the
example ray `origin (0,0,1)`, `direction (0,0,−1)` lies inside that plane, so
both triangles are rejected as degenerate (`det = 0`) and `getUVFromLocalRay`
returns `none`, not the claimed hit. -/
theorem quad_end_to_end_counterexample :
    getUVFromLocalRay quadXZ true ⟨0, 0, 1⟩ ⟨0, 0, -1⟩ 10 = none ∧
    getUVFromLocalRay quadXZ false ⟨0, 0, 1⟩ ⟨0, 0, -1⟩ 10 = none := by
  constructor <;> with_unfolding_all decide

/-- Claim C9 (amended): with the two-triangle unit quad laid out facing the
ray (corners spanning `X ∈ [−1/2,1/2]`, `Y ∈ [−1/2,1/2]` at `Z = 0`, UVs
`(0,0),(1,0),(1,1),(0,1)`, indices `[0,1,2,0,2,3]`), the ray with local
origin `(0,0,1)` and direction `(0,0,−1)` hits at local `(0,0,0)` and
resolves to UV `(1/2, 1/2)`. -/
theorem quad_end_to_end :
    getUVFromLocalRay quadXY true ⟨0, 0, 1⟩ ⟨0, 0, -1⟩ 10
      = some ⟨(1/2, 1/2), 0, ⟨0, 0, 0⟩⟩ := by
  with_unfolding_all decide

/-! ### Helper lemmas: hex-color recognition -/

theorem matchHexDigits_spec (cs ds : List Char) (h : matchHexDigits cs = some ds) :
    (ds.length = 3 ∨ ds.length = 6) ∧ ds.all isHexDigit = true := by
  rw [matchHexDigits] at h
  split_ifs at h with h6 h3
  · obtain rfl := Option.some.inj h
    exact ⟨Or.inr h6.1, h6.2⟩
  · obtain rfl := Option.some.inj h
    exact ⟨Or.inl h3.1, h3.2⟩

theorem findHexToken_spec (l : List Char) (tok : List Char) (h : findHexToken l = some tok) :
    (tok.length = 3 ∨ tok.length = 6) ∧ tok.all isHexDigit = true := by
  induction l with
  | nil => exact Option.noConfusion h
  | cons c cs ih =>
    rw [findHexToken] at h
    by_cases hc : c = '#'
    · rw [if_pos hc] at h
      cases hm : matchHexDigits cs with
      | none =>
        simp only [hm] at h
        exact ih h
      | some ds =>
        simp only [hm] at h
        exact Option.some.inj h ▸ matchHexDigits_spec cs ds hm
    · rw [if_neg hc] at h
      exact ih h

theorem hexDigitVal_le_15 (c : Char) : hexDigitVal c ≤ 15 := by
  have h0 : '0'.toNat = 48 := rfl
  have h9 : '9'.toNat = 57 := rfl
  have ha : 'a'.toNat = 97 := rfl
  have hf : 'f'.toNat = 102 := rfl
  have hA : 'A'.toNat = 65 := rfl
  have hF : 'F'.toNat = 70 := rfl
  rw [hexDigitVal]
  split_ifs with h1 h2 h3 <;> omega

theorem parseHexPair_hex (a b : Char) (ha : isHexDigit a = true) (hb : isHexDigit b = true) :
    parseHexPair a b = some (16 * hexDigitVal a + hexDigitVal b) := by
  rw [parseHexPair, if_pos ha, if_pos hb]

theorem pair_div255_mem_unit (a b : Char) :
    (0 : ℚ) ≤ ((16 * hexDigitVal a + hexDigitVal b : ℕ) : ℚ) / 255 ∧
    ((16 * hexDigitVal a + hexDigitVal b : ℕ) : ℚ) / 255 ≤ 1 := by
  have hle : (16 * hexDigitVal a + hexDigitVal b : ℕ) ≤ 255 := by
    have h1 := hexDigitVal_le_15 a
    have h2 := hexDigitVal_le_15 b
    omega
  constructor
  · positivity
  · rw [div_le_one (by norm_num : (0:ℚ) < 255)]
    exact_mod_cast hle

theorem parseRgb6_hex (l : List Char) (hlen : l.length = 6) (hall : l.all isHexDigit = true) :
    ∃ rgb : ℚ × ℚ × ℚ, parseRgb6 l = some rgb ∧
      0 ≤ rgb.1 ∧ rgb.1 ≤ 1 ∧ 0 ≤ rgb.2.1 ∧ rgb.2.1 ≤ 1 ∧ 0 ≤ rgb.2.2 ∧ rgb.2.2 ≤ 1 := by
  rcases l with _ | ⟨a, l⟩; · simp at hlen
  rcases l with _ | ⟨b, l⟩; · simp at hlen
  rcases l with _ | ⟨c, l⟩; · simp at hlen
  rcases l with _ | ⟨d, l⟩; · simp at hlen
  rcases l with _ | ⟨e, l⟩; · simp at hlen
  rcases l with _ | ⟨f, l⟩; · simp at hlen
  rcases l with _ | ⟨g, l⟩
  · simp only [List.all_cons, Bool.and_eq_true] at hall
    obtain ⟨ha, hb, hc, hd, he, hf, -⟩ := hall
    refine ⟨(((16 * hexDigitVal a + hexDigitVal b : ℕ) : ℚ) / 255,
      ((16 * hexDigitVal c + hexDigitVal d : ℕ) : ℚ) / 255,
      ((16 * hexDigitVal e + hexDigitVal f : ℕ) : ℚ) / 255), ?_, ?_, ?_, ?_, ?_, ?_, ?_⟩
    · simp only [parseRgb6, parseHexPair_hex a b ha hb, parseHexPair_hex c d hc hd,
        parseHexPair_hex e f he hf]
    · exact (pair_div255_mem_unit a b).1
    · exact (pair_div255_mem_unit a b).2
    · exact (pair_div255_mem_unit c d).1
    · exact (pair_div255_mem_unit c d).2
    · exact (pair_div255_mem_unit e f).1
    · exact (pair_div255_mem_unit e f).2
  · simp at hlen

theorem removeFirstHash_cons_hash (l : List Char) : removeFirstHash ('#' :: l) = l := by
  rw [removeFirstHash, if_pos rfl]

theorem doubleChars_length (l : List Char) : (doubleChars l).length = 2 * l.length := by
  induction l with
  | nil => rfl
  | cons c cs ih =>
    rw [doubleChars]
    simp only [List.length_cons, ih]
    omega

theorem doubleChars_all (p : Char → Bool) (l : List Char) (h : l.all p = true) :
    (doubleChars l).all p = true := by
  induction l with
  | nil => rfl
  | cons c cs ih =>
    simp only [List.all_cons, Bool.and_eq_true] at h
    rw [doubleChars]
    simp only [List.all_cons, Bool.and_eq_true]
    exact ⟨h.1, h.1, ih h.2⟩

theorem hexToRgbNormalized_token (tok : List Char) (hlen : tok.length = 3 ∨ tok.length = 6) :
    hexToRgbNormalized ('#' :: tok)
      = parseRgb6 (if tok.length = 3 then doubleChars tok else tok) := by
  rw [hexToRgbNormalized, removeFirstHash_cons_hash]
  rcases hlen with h3 | h6
  · rw [if_pos h3, if_pos h3]
  · rw [if_neg (by omega), if_neg (by omega), if_neg (by omega)]

/-! ### Claim theorems: color recognition -/

/-- Claim C8 counterexample: for the name `Palette_#abc` the recognizer
returns the hex string `#abc` — the lower-cased *matched* token — not the
claimed expanded `#aabbcc`.  (The RGB triple is computed from the expansion,
so it matches the claim.) -/
theorem tryPickColorFromName_3digit_counterexample :
    tryPickColorFromName "Palette_#abc"
      = some ("#abc", ((170:ℚ)/255, (187:ℚ)/255, (204:ℚ)/255)) ∧
    ("#abc" : String) ≠ "#aabbcc" := by
  constructor
  · with_unfolding_all decide
  · with_unfolding_all decide

/-- Claim C8 (amended): the recognizer finds the first token of `#` followed
by 3 or 6 hex digits (case-insensitive); on success it returns the
lower-cased matched string — a 3-digit match is returned as matched, *not*
expanded — together with the triple `(r/255, g/255, b/255)`, each component
in `[0,1]`, where a 3-digit body is expanded by doubling each nibble before
conversion; on no match it returns nothing.  `Palette_#1a2b3c_swatch` yields
`#1a2b3c` with RGB `(26/255, 43/255, 60/255)`, and `Palette_#abc` yields hex
`#abc` whose RGB `(170/255, 187/255, 204/255)` comes from the `#aabbcc`
expansion. -/
theorem tryPickColorFromName_spec :
    (∀ name : String, findHexToken name.data = none → tryPickColorFromName name = none) ∧
    (∀ (name : String) (tok : List Char), findHexToken name.data = some tok →
      (tok.length = 3 ∨ tok.length = 6) ∧ tok.all isHexDigit = true ∧
      ∃ rgb : ℚ × ℚ × ℚ,
        tryPickColorFromName name = some (String.mk (('#' :: tok).map Char.toLower), rgb) ∧
        parseRgb6 (if tok.length = 3 then doubleChars tok else tok) = some rgb ∧
        0 ≤ rgb.1 ∧ rgb.1 ≤ 1 ∧ 0 ≤ rgb.2.1 ∧ rgb.2.1 ≤ 1 ∧ 0 ≤ rgb.2.2 ∧ rgb.2.2 ≤ 1) ∧
    tryPickColorFromName "Palette_#1a2b3c_swatch"
      = some ("#1a2b3c", ((26:ℚ)/255, (43:ℚ)/255, (60:ℚ)/255)) ∧
    tryPickColorFromName "Palette_#abc"
      = some ("#abc", ((170:ℚ)/255, (187:ℚ)/255, (204:ℚ)/255)) := by
  refine ⟨?_, ?_, by with_unfolding_all decide, by with_unfolding_all decide⟩
  · intro name hf
    simp [tryPickColorFromName, hf]
  · intro name tok hf
    obtain ⟨hlen, hall⟩ := findHexToken_spec name.data tok hf
    have hrgb : ∃ rgb : ℚ × ℚ × ℚ,
        parseRgb6 (if tok.length = 3 then doubleChars tok else tok) = some rgb ∧
        0 ≤ rgb.1 ∧ rgb.1 ≤ 1 ∧ 0 ≤ rgb.2.1 ∧ rgb.2.1 ≤ 1 ∧ 0 ≤ rgb.2.2 ∧ rgb.2.2 ≤ 1 := by
      rcases hlen with h3 | h6
      · rw [if_pos h3]
        exact parseRgb6_hex _ (by rw [doubleChars_length, h3]) (doubleChars_all _ _ hall)
      · rw [if_neg (by omega)]
        exact parseRgb6_hex _ h6 hall
    obtain ⟨rgb, hparse, hbounds⟩ := hrgb
    refine ⟨hlen, hall, rgb, ?_, hparse, hbounds⟩
    rw [tryPickColorFromName]
    simp only [hf]
    rw [hexToRgbNormalized_token tok hlen, hparse]

theorem tryPickColorFromName_spec_witness :
    findHexToken "Palette_#1a2b3c_swatch".data = some ['1', 'a', '2', 'b', '3', 'c'] ∧
    (['1', 'a', '2', 'b', '3', 'c'].length = 3 ∨ ['1', 'a', '2', 'b', '3', 'c'].length = 6) ∧
    ['1', 'a', '2', 'b', '3', 'c'].all isHexDigit = true ∧
    ∃ rgb : ℚ × ℚ × ℚ,
      tryPickColorFromName "Palette_#1a2b3c_swatch"
        = some (String.mk (('#' :: ['1', 'a', '2', 'b', '3', 'c']).map Char.toLower), rgb) ∧
      parseRgb6 (if (['1', 'a', '2', 'b', '3', 'c'] : List Char).length = 3
        then doubleChars ['1', 'a', '2', 'b', '3', 'c'] else ['1', 'a', '2', 'b', '3', 'c'])
        = some rgb ∧
      0 ≤ rgb.1 ∧ rgb.1 ≤ 1 ∧ 0 ≤ rgb.2.1 ∧ rgb.2.1 ≤ 1 ∧ 0 ≤ rgb.2.2 ∧ rgb.2.2 ≤ 1 :=
  ⟨by with_unfolding_all decide,
    tryPickColorFromName_spec.2.1 "Palette_#1a2b3c_swatch" ['1', 'a', '2', 'b', '3', 'c']
      (by with_unfolding_all decide)⟩

/-! ### Helper lemmas: the brush state machine -/

theorem dabsFor_ne_nil (cfg : BrushCfg) (pd : PaintableData) (doInterp : Bool)
    (lastUV : Option (ℚ × ℚ)) (uv : ℚ × ℚ) : dabsFor cfg pd doInterp lastUV uv ≠ [] := by
  simp only [dabsFor]
  split_ifs with hdi
  · cases lastUV with
    | none => simp
    | some luv =>
      apply List.ne_nil_of_length_pos
      rw [List.length_map, List.length_range]
      exact Nat.succ_pos _
  · simp

theorem paintStep_dabs_ne_nil (cfg : BrushCfg) (st : BrushState) (oid : ObjId)
    (pd : PaintableData) (uvr : UVResult) : (paintStep cfg st oid pd uvr).dabs ≠ [] := by
  rw [paintStep]
  exact dabsFor_ne_nil cfg pd _ _ _

/-! ### Claim theorems: the brush state machine -/

/-- Claim C3 counterexample: the claim says the no-paint-capability frame
marks *every tracked identity* contact-lost.  With identity 5 tracked in the
last-UV map and a frame hitting object 7 (no paint capability), the code only
marks identity 7: identity 5's flag stays unset (`none`), though no dab is
painted. -/
theorem update_contact_lost_counterexample :
    mapGet 5 stC3.lastUV = some (0, 0) ∧
    fdC3.rayHit = some ⟨⟨0, 0, 0⟩, "wall", 7, none⟩ ∧
    mapGet 5 (update cfg0 stC3 fdC3).state.contactLost = none ∧
    mapGet 7 (update cfg0 stC3 fdC3).state.contactLost = some true ∧
    (update cfg0 stC3 fdC3).dabs = [] := by
  refine ⟨by with_unfolding_all decide, rfl, ?_, ?_, ?_⟩ <;> with_unfolding_all decide

/-- Claim C3 (amended): when there is no ray hit (or no hit object) the
tracker sets the contact-lost flag of every identity tracked in the last-UV
map; when the hit target has no paint capability, or UV resolution fails, it
sets the contact-lost flag of the *hit object's* identity only; in all these
cases no dab is painted. -/
theorem update_no_paint_marks_contact_lost (cfg : BrushCfg) (st : BrushState) (fd : FrameData) :
    (fd.rayHit = none →
      update cfg st fd
          = ⟨{ st with contactLost := markAllLost st.lastUV st.contactLost }, [], none⟩ ∧
        ∀ k uv, mapGet k st.lastUV = some uv →
          mapGet k (update cfg st fd).state.contactLost = some true) ∧
    (∀ rh, fd.rayHit = some rh → tryPickColorFromName rh.name = none → rh.paintable = none →
      update cfg st fd
        = ⟨{ st with contactLost := mapSet rh.objectId true st.contactLost }, [], none⟩) ∧
    (∀ rh pd, fd.rayHit = some rh → tryPickColorFromName rh.name = none →
      rh.paintable = some pd → pd.uvResult = none →
      update cfg st fd
        = ⟨{ st with contactLost := mapSet rh.objectId true st.contactLost }, [], none⟩) := by
  refine ⟨?_, ?_, ?_⟩
  · intro hray
    have hupd : update cfg st fd
        = ⟨{ st with contactLost := markAllLost st.lastUV st.contactLost }, [], none⟩ := by
      simp [update, hray]
    refine ⟨hupd, ?_⟩
    intro k uv hk
    rw [hupd]
    show mapGet k (markAllLost st.lastUV st.contactLost) = some true
    rw [mapGet_markAllLost, if_pos (mapGet_some_mem k uv st.lastUV hk)]
  · intro rh hray hpick hpaint
    simp [update, hray, hpick, hpaint]
  · intro rh pd hray hpick hpaint huvr
    simp [update, hray, hpick, hpaint, huvr]

theorem update_no_paint_marks_contact_lost_witness :
    update cfg0 stC3 fdNoHit
        = ⟨{ stC3 with contactLost := markAllLost stC3.lastUV stC3.contactLost }, [], none⟩ ∧
    mapGet 5 (update cfg0 stC3 fdNoHit).state.contactLost = some true :=
  ⟨((update_no_paint_marks_contact_lost cfg0 stC3 fdNoHit).1 rfl).1,
    ((update_no_paint_marks_contact_lost cfg0 stC3 fdNoHit).1 rfl).2 5 (0, 0)
      (by with_unfolding_all decide)⟩

/-- Claim C7: on a frame whose hit resolved a UV on a paintable surface, a
dab may be painted only when proximity painting is enabled and the world
distance from brush tip to hit point (as a real square root) is at most the
configured radius — the boundary case `distance = radius` included; when the
distance exceeds the radius or proximity painting is disabled, the identity's
last UV/triangle are cleared, its contact-lost flag is set, and no dab is
painted; conversely every in-range frame paints at least one dab. -/
theorem update_proximity_gate (cfg : BrushCfg) (st : BrushState) (fd : FrameData)
    (rh : RayHitData) (pd : PaintableData) (uvr : UVResult)
    (hray : fd.rayHit = some rh) (hpick : tryPickColorFromName rh.name = none)
    (hpaint : rh.paintable = some pd) (huvr : pd.uvResult = some uvr) :
    (¬ (cfg.paintOnProximity = true ∧
        Real.sqrt ((distSqWorld fd.worldOrigin rh.worldHitPos : ℚ) : ℝ)
          ≤ ((cfg.brushWorldRadius : ℚ) : ℝ)) →
      update cfg st fd = ⟨{ st with
          lastUV := mapDel rh.objectId st.lastUV
          lastTri := mapDel rh.objectId st.lastTri
          contactLost := mapSet rh.objectId true st.contactLost }, [], none⟩) ∧
    ((cfg.paintOnProximity = true ∧
        Real.sqrt ((distSqWorld fd.worldOrigin rh.worldHitPos : ℚ) : ℝ)
          ≤ ((cfg.brushWorldRadius : ℚ) : ℝ)) →
      (update cfg st fd).dabs ≠ []) ∧
    ((update cfg st fd).dabs ≠ [] →
      cfg.paintOnProximity = true ∧
        Real.sqrt ((distSqWorld fd.worldOrigin rh.worldHitPos : ℚ) : ℝ)
          ≤ ((cfg.brushWorldRadius : ℚ) : ℝ)) := by
  have hd2 := distSqWorld_nonneg fd.worldOrigin rh.worldHitPos
  have hiff : (cfg.paintOnProximity = true ∧
      Real.sqrt ((distSqWorld fd.worldOrigin rh.worldHitPos : ℚ) : ℝ)
        ≤ ((cfg.brushWorldRadius : ℚ) : ℝ)) ↔
      (cfg.paintOnProximity && decide (0 ≤ cfg.brushWorldRadius ∧
        distSqWorld fd.worldOrigin rh.worldHitPos
          ≤ cfg.brushWorldRadius * cfg.brushWorldRadius)) = true := by
    rw [Bool.and_eq_true, decide_eq_true_eq, sqrt_le_iff_sq _ _ hd2]
  refine ⟨?_, ?_, ?_⟩
  · intro hn
    have hwf : (cfg.paintOnProximity && decide (0 ≤ cfg.brushWorldRadius ∧
        distSqWorld fd.worldOrigin rh.worldHitPos
          ≤ cfg.brushWorldRadius * cfg.brushWorldRadius)) = false := by
      cases hb : (cfg.paintOnProximity && decide (0 ≤ cfg.brushWorldRadius ∧
          distSqWorld fd.worldOrigin rh.worldHitPos
            ≤ cfg.brushWorldRadius * cfg.brushWorldRadius)) with
      | false => rfl
      | true => exact absurd (hiff.mpr hb) hn
    simp only [update, hray, hpick, hpaint, huvr]
    rw [hwf, if_pos rfl]
  · intro hw
    have hwt := hiff.mp hw
    have hupd : update cfg st fd = paintStep cfg st rh.objectId pd uvr := by
      simp only [update, hray, hpick, hpaint, huvr]
      rw [hwt, if_neg (fun hcontr => Bool.noConfusion hcontr)]
    rw [hupd]
    exact paintStep_dabs_ne_nil cfg st rh.objectId pd uvr
  · intro hne
    by_cases hb : (cfg.paintOnProximity && decide (0 ≤ cfg.brushWorldRadius ∧
        distSqWorld fd.worldOrigin rh.worldHitPos
          ≤ cfg.brushWorldRadius * cfg.brushWorldRadius)) = true
    · exact hiff.mpr hb
    · have hwf : (cfg.paintOnProximity && decide (0 ≤ cfg.brushWorldRadius ∧
          distSqWorld fd.worldOrigin rh.worldHitPos
            ≤ cfg.brushWorldRadius * cfg.brushWorldRadius)) = false :=
        Bool.eq_false_iff.mpr hb
      have hupd : update cfg st fd = ⟨{ st with
          lastUV := mapDel rh.objectId st.lastUV
          lastTri := mapDel rh.objectId st.lastTri
          contactLost := mapSet rh.objectId true st.contactLost }, [], none⟩ := by
        simp only [update, hray, hpick, hpaint, huvr]
        rw [hwf, if_pos rfl]
      exact absurd (by rw [hupd] : (update cfg st fd).dabs = []) hne

theorem update_proximity_gate_witness :
    ((true : Bool) = true ∧
      Real.sqrt ((distSqWorld fd0.worldOrigin (⟨⟨0, 0, 1/20⟩, "wall", 7, some pd0⟩ :
        RayHitData).worldHitPos : ℚ) : ℝ) ≤ ((cfg0.brushWorldRadius : ℚ) : ℝ)) ∧
    (update cfg0 st0 fd0).dabs ≠ [] := by
  have hb : ((true : Bool) = true ∧
      Real.sqrt ((distSqWorld fd0.worldOrigin (⟨⟨0, 0, 1/20⟩, "wall", 7, some pd0⟩ :
        RayHitData).worldHitPos : ℚ) : ℝ) ≤ ((cfg0.brushWorldRadius : ℚ) : ℝ)) := by
    refine ⟨rfl, ?_⟩
    have hv : (distSqWorld fd0.worldOrigin (⟨⟨0, 0, 1/20⟩, "wall", 7, some pd0⟩ :
        RayHitData).worldHitPos : ℚ) = 1/400 := by with_unfolding_all decide
    have hr : (cfg0.brushWorldRadius : ℚ) = 1/20 := by with_unfolding_all decide
    rw [hv, hr]
    have hsq : ((1/400 : ℚ) : ℝ) = ((1/20 : ℚ) : ℝ) * ((1/20 : ℚ) : ℝ) := by
      push_cast
      norm_num
    rw [hsq, Real.sqrt_mul_self (by positivity)]
  exact ⟨hb, (update_proximity_gate cfg0 st0 fd0 ⟨⟨0, 0, 1/20⟩, "wall", 7, some pd0⟩ pd0
    ⟨(1/10, 0), 3, ⟨0, 0, 0⟩⟩ rfl (by with_unfolding_all decide) rfl rfl).2.1 hb⟩

/-- Claim C10: on a frame whose hit object's name carries a hex-color token,
the brush overwrites its own color with the picked RGB at alpha 1 and emits
the pick event with the hex string in the same frame's output; the picked
identity's stored last UV and triangle are deleted and its contact-lost flag
set; no dab is painted; and every other identity's entries in all three maps
are unchanged. -/
theorem update_color_pick_effects (cfg : BrushCfg) (st : BrushState) (fd : FrameData)
    (rh : RayHitData) (hex : String) (rgb : ℚ × ℚ × ℚ)
    (hray : fd.rayHit = some rh) (hpick : tryPickColorFromName rh.name = some (hex, rgb)) :
    update cfg st fd = ⟨{ st with
        brushColor := (rgb.1, rgb.2.1, rgb.2.2, 1)
        lastUV := mapDel rh.objectId st.lastUV
        lastTri := mapDel rh.objectId st.lastTri
        contactLost := mapSet rh.objectId true st.contactLost }, [], some hex⟩ ∧
    (update cfg st fd).state.brushColor = (rgb.1, rgb.2.1, rgb.2.2, 1) ∧
    (update cfg st fd).pickedColor = some hex ∧
    (update cfg st fd).dabs = [] ∧
    mapGet rh.objectId (update cfg st fd).state.lastUV = none ∧
    mapGet rh.objectId (update cfg st fd).state.lastTri = none ∧
    mapGet rh.objectId (update cfg st fd).state.contactLost = some true ∧
    (∀ k, k ≠ rh.objectId →
      mapGet k (update cfg st fd).state.lastUV = mapGet k st.lastUV ∧
      mapGet k (update cfg st fd).state.lastTri = mapGet k st.lastTri ∧
      mapGet k (update cfg st fd).state.contactLost = mapGet k st.contactLost) := by
  have hupd : update cfg st fd = ⟨{ st with
      brushColor := (rgb.1, rgb.2.1, rgb.2.2, 1)
      lastUV := mapDel rh.objectId st.lastUV
      lastTri := mapDel rh.objectId st.lastTri
      contactLost := mapSet rh.objectId true st.contactLost }, [], some hex⟩ := by
    simp [update, hray, hpick]
  rw [hupd]
  refine ⟨rfl, rfl, rfl, rfl, ?_, ?_, ?_, ?_⟩
  · show mapGet rh.objectId (mapDel rh.objectId st.lastUV) = none
    rw [mapGet_mapDel, if_pos rfl]
  · show mapGet rh.objectId (mapDel rh.objectId st.lastTri) = none
    rw [mapGet_mapDel, if_pos rfl]
  · show mapGet rh.objectId (mapSet rh.objectId true st.contactLost) = some true
    rw [mapGet_mapSet, if_pos rfl]
  · intro k hk
    refine ⟨?_, ?_, ?_⟩
    · show mapGet k (mapDel rh.objectId st.lastUV) = mapGet k st.lastUV
      rw [mapGet_mapDel, if_neg hk]
    · show mapGet k (mapDel rh.objectId st.lastTri) = mapGet k st.lastTri
      rw [mapGet_mapDel, if_neg hk]
    · show mapGet k (mapSet rh.objectId true st.contactLost) = mapGet k st.contactLost
      rw [mapGet_mapSet, if_neg hk]

theorem update_color_pick_effects_witness :
    (update cfg0 st0 fdPick).pickedColor = some "#1a2b3c" ∧
    (update cfg0 st0 fdPick).state.brushColor = ((26:ℚ)/255, (43:ℚ)/255, (60:ℚ)/255, 1) ∧
    (update cfg0 st0 fdPick).dabs = [] :=
  ⟨(update_color_pick_effects cfg0 st0 fdPick ⟨⟨0, 0, 0⟩, "Palette_#1a2b3c_swatch", 9, none⟩
      "#1a2b3c" ((26:ℚ)/255, (43:ℚ)/255, (60:ℚ)/255) rfl (by with_unfolding_all decide)).2.2.1,
    (update_color_pick_effects cfg0 st0 fdPick ⟨⟨0, 0, 0⟩, "Palette_#1a2b3c_swatch", 9, none⟩
      "#1a2b3c" ((26:ℚ)/255, (43:ℚ)/255, (60:ℚ)/255) rfl (by with_unfolding_all decide)).2.1,
    (update_color_pick_effects cfg0 st0 fdPick ⟨⟨0, 0, 0⟩, "Palette_#1a2b3c_swatch", 9, none⟩
      "#1a2b3c" ((26:ℚ)/255, (43:ℚ)/255, (60:ℚ)/255) rfl (by with_unfolding_all decide)).2.2.2.1⟩

/-- Claim C2: in a frame whose hit lies within proximity, with the surface's
contact-lost flag clear and a previous UV and triangle stored: if the current
triangle's vertex indices share at least one index with the previous
triangle's, exactly `steps + 1` dabs are painted at UV positions linearly
interpolated from the previous UV to the current UV inclusive of both
endpoints, where
`steps = max 1 ⌈pixelDistance / max 1 ⌊brushRadiusPx · 0.5⌋⌉` and
`pixelDistance` is the real (square-root) UV distance scaled by the raster
size; if no vertex index is shared exactly one dab is painted at the current
UV; in both cases the current UV and triangle are recorded as the new last.
The spec's adjacency examples are verified concretely. -/
theorem update_stroke_interpolation (cfg : BrushCfg) (st : BrushState) (fd : FrameData)
    (rh : RayHitData) (pd : PaintableData) (uvr : UVResult)
    (luv : ℚ × ℚ) (ltri ct : ℕ × ℕ × ℕ)
    (hray : fd.rayHit = some rh) (hpick : tryPickColorFromName rh.name = none)
    (hpaint : rh.paintable = some pd) (huvr : pd.uvResult = some uvr)
    (hprox : cfg.paintOnProximity = true ∧
      Real.sqrt ((distSqWorld fd.worldOrigin rh.worldHitPos : ℚ) : ℝ)
        ≤ ((cfg.brushWorldRadius : ℚ) : ℝ))
    (hcl : ¬ mapGet rh.objectId st.contactLost = some true)
    (hluv : mapGet rh.objectId st.lastUV = some luv)
    (hltri : mapGet rh.objectId st.lastTri = some ltri)
    (htv : pd.triVerts uvr.triIndex = some ct) :
    (sharesVertex ct ltri = true → ∃ steps : ℕ,
      steps = max 1 ⌈Real.sqrt ((distSqPx luv uvr.uv pd.canvasW pd.canvasH : ℚ) : ℝ) /
        ((stepSizeOf cfg.brushRadiusPx : ℕ) : ℝ)⌉₊ ∧
      (update cfg st fd).dabs = (List.range (steps + 1)).map (fun (k : ℕ) =>
        (luv.1 * (1 - (k : ℚ) / (steps : ℚ)) + uvr.uv.1 * ((k : ℚ) / (steps : ℚ)),
         luv.2 * (1 - (k : ℚ) / (steps : ℚ)) + uvr.uv.2 * ((k : ℚ) / (steps : ℚ)))) ∧
      (update cfg st fd).dabs.length = steps + 1 ∧
      (update cfg st fd).dabs.head? = some luv ∧
      (update cfg st fd).dabs.getLast? = some uvr.uv) ∧
    (sharesVertex ct ltri = false → (update cfg st fd).dabs = [uvr.uv]) ∧
    mapGet rh.objectId (update cfg st fd).state.lastUV = some uvr.uv ∧
    mapGet rh.objectId (update cfg st fd).state.lastTri = some ct ∧
    sharesVertex (2, 5, 6) (0, 1, 2) = true ∧
    sharesVertex (7, 8, 9) (0, 1, 2) = false := by
  have hd2 := distSqWorld_nonneg fd.worldOrigin rh.worldHitPos
  have hwt : (cfg.paintOnProximity && decide (0 ≤ cfg.brushWorldRadius ∧
      distSqWorld fd.worldOrigin rh.worldHitPos
        ≤ cfg.brushWorldRadius * cfg.brushWorldRadius)) = true := by
    rw [Bool.and_eq_true, decide_eq_true_eq]
    exact ⟨hprox.1, (sqrt_le_iff_sq _ _ hd2).mp hprox.2⟩
  have hupd : update cfg st fd = paintStep cfg st rh.objectId pd uvr := by
    simp only [update, hray, hpick, hpaint, huvr]
    rw [hwt, if_neg (fun hcontr => Bool.noConfusion hcontr)]
  have hps : paintStep cfg st rh.objectId pd uvr = ⟨{ st with
      lastUV := mapSet rh.objectId uvr.uv st.lastUV
      lastTri := mapSet rh.objectId ct st.lastTri
      contactLost := mapSet rh.objectId false st.contactLost },
    dabsFor cfg pd (sharesVertex ct ltri) (some luv) uvr.uv, none⟩ := by
    simp only [paintStep]
    rw [if_neg hcl]
    simp only [hluv, hltri, htv]
  have hdabs : (update cfg st fd).dabs
      = dabsFor cfg pd (sharesVertex ct ltri) (some luv) uvr.uv := by
    rw [hupd, hps]
  refine ⟨?_, ?_, ?_, ?_, by decide, by decide⟩
  · intro hsvt
    set stepsC := max 1 (ceilSqrtDiv (distSqPx luv uvr.uv pd.canvasW pd.canvasH)
      (stepSizeOf cfg.brushRadiusPx)) with hstepsdef
    have hsne : stepsC ≠ 0 := Nat.one_le_iff_ne_zero.mp (le_max_left 1 _)
    have hdabs2 : (update cfg st fd).dabs = (List.range (stepsC + 1)).map (fun (k : ℕ) =>
        (luv.1 * (1 - (k : ℚ) / (stepsC : ℚ)) + uvr.uv.1 * ((k : ℚ) / (stepsC : ℚ)),
         luv.2 * (1 - (k : ℚ) / (stepsC : ℚ)) + uvr.uv.2 * ((k : ℚ) / (stepsC : ℚ)))) := by
      rw [hdabs]
      simp only [dabsFor, hsvt, if_true]
      simp only [← hstepsdef, if_neg hsne]
    refine ⟨stepsC, ?_, hdabs2, ?_, ?_, ?_⟩
    · rw [hstepsdef,
        ceilSqrtDiv_eq_ceil (distSqPx luv uvr.uv pd.canvasW pd.canvasH)
          (distSqPx_nonneg luv uvr.uv pd.canvasW pd.canvasH)
          (stepSizeOf cfg.brushRadiusPx) (one_le_stepSizeOf cfg.brushRadiusPx)]
    · rw [hdabs2, List.length_map, List.length_range]
    · rw [hdabs2, List.range_succ_eq_map]
      simp only [List.map_cons, List.head?_cons]
      simp
    · rw [hdabs2, List.range_succ, List.map_append, List.map_cons, List.map_nil,
        List.getLast?_concat]
      have hdiv : ((stepsC : ℕ) : ℚ) / ((stepsC : ℕ) : ℚ) = 1 :=
        div_self (by exact_mod_cast hsne)
      rw [hdiv]
      simp
  · intro hsvf
    rw [hdabs]
    simp only [dabsFor, hsvf, Bool.false_eq_true, if_false]
  · rw [hupd, hps]
    show mapGet rh.objectId (mapSet rh.objectId uvr.uv st.lastUV) = some uvr.uv
    rw [mapGet_mapSet, if_pos rfl]
  · rw [hupd, hps]
    show mapGet rh.objectId (mapSet rh.objectId ct st.lastTri) = some ct
    rw [mapGet_mapSet, if_pos rfl]

theorem update_stroke_interpolation_witness :
    mapGet 7 (update cfg0 st0 fd0).state.lastUV = some ((1/10 : ℚ), (0 : ℚ)) ∧
    mapGet 7 (update cfg0 st0 fd0).state.lastTri = some ((2, 5, 6) : ℕ × ℕ × ℕ) ∧
    ∃ steps : ℕ,
      steps = max 1 ⌈Real.sqrt ((distSqPx (0, 0) (1/10, 0) 1024 1024 : ℚ) : ℝ) /
        ((stepSizeOf 10 : ℕ) : ℝ)⌉₊ ∧
      (update cfg0 st0 fd0).dabs.length = steps + 1 := by
  have hprox : cfg0.paintOnProximity = true ∧
      Real.sqrt ((distSqWorld fd0.worldOrigin
        (⟨⟨0, 0, 1/20⟩, "wall", 7, some pd0⟩ : RayHitData).worldHitPos : ℚ) : ℝ)
        ≤ ((cfg0.brushWorldRadius : ℚ) : ℝ) := by
    refine ⟨rfl, ?_⟩
    have hd : distSqWorld fd0.worldOrigin
        (⟨⟨0, 0, 1/20⟩, "wall", 7, some pd0⟩ : RayHitData).worldHitPos = 1/400 := by
      with_unfolding_all decide
    have hr : cfg0.brushWorldRadius = 1/20 := rfl
    rw [hd, hr]
    exact (sqrt_le_iff_sq (1/400) (1/20) (by norm_num)).mpr ⟨by norm_num, by norm_num⟩
  have h := update_stroke_interpolation cfg0 st0 fd0
    ⟨⟨0, 0, 1/20⟩, "wall", 7, some pd0⟩ pd0 ⟨(1/10, 0), 3, ⟨0, 0, 0⟩⟩ (0, 0) (0, 1, 2) (2, 5, 6)
    rfl (by with_unfolding_all decide) rfl rfl hprox
    (by with_unfolding_all decide) (by with_unfolding_all decide)
    (by with_unfolding_all decide) (by with_unfolding_all decide)
  obtain ⟨steps, hse, -, hlen, -, -⟩ := h.1 (by decide)
  exact ⟨h.2.2.1, h.2.2.2.1, steps, hse, hlen⟩

end EnsoXR
